import Mathlib

/-!
Verification of the `pi_slotmap_graph` storage/indexing core.

The development shallowly embeds the repository's data model:
generational slot storage (spec-modelled, since `pi_slotmap::SlotMap`
is an external crate), the vertex and edge containers, the connectivity
record `EdgeInfo`, the hash and range multimap indices, the composite
vertex-query facade `SimpleVertexQuery`, and the `SlotMapGraph` operations
built on top of them.
-/

namespace SlotGraph

/-- Modelled from the spec: pi_slotmap's `DefaultKey` is missing from the
sources (external crate).  A key is either the default ("null", reported as
"not a real element") or a (slot-index, generation) pair, per spec sections
3 and 9. -/
inductive Key where
  | null : Key
  | live (idx : Nat) (gen : Nat) : Key
deriving DecidableEq, Repr

/-- One storage slot: its current generation and (when occupied) its payload. -/
structure Slot (α : Type) where
  gen : Nat
  val : Option α
deriving DecidableEq, Repr

/-- Modelled from the spec: the generational slot map of `pi_slotmap`
(external crate), per spec section 4.1: a parallel generation per slot and
a free-list stack for O(1) slot reuse. -/
structure SlotMap (α : Type) where
  slots : List (Slot α)
  free : List Nat
deriving DecidableEq, Repr

namespace SlotMap

variable {α : Type}

def empty : SlotMap α := ⟨[], []⟩

/-- Modelled from the spec: `insert(value) -> Handle` allocates a free slot
(reusing a tombstoned one if available) and returns a handle encoding
(slot, generation). -/
def insert (m : SlotMap α) (v : α) : SlotMap α × Key :=
  match m.free with
  | i :: rest =>
    match m.slots[i]? with
    | some s => (⟨m.slots.set i ⟨s.gen, some v⟩, rest⟩, Key.live i s.gen)
    | none => (⟨m.slots ++ [⟨0, some v⟩], rest⟩, Key.live m.slots.length 0)
  | [] => (⟨m.slots ++ [⟨0, some v⟩], []⟩, Key.live m.slots.length 0)

/-- Modelled from the spec: `get(handle)` returns the payload only if the
stored generation matches the handle's generation, else not-found. -/
def get (m : SlotMap α) (k : Key) : Option α :=
  match k with
  | Key.null => none
  | Key.live i g =>
    match m.slots[i]? with
    | some s => if s.gen = g then s.val else none
    | none => none

/-- Modelled from the spec: in-place mutation through `get_mut`, as a
functional update of the payload behind a live, generation-matching handle. -/
def setVal (m : SlotMap α) (k : Key) (v : α) : SlotMap α :=
  match k with
  | Key.null => m
  | Key.live i g =>
    match m.slots[i]? with
    | some s =>
      if s.gen = g ∧ s.val.isSome then ⟨m.slots.set i ⟨s.gen, some v⟩, m.free⟩ else m
    | none => m

/-- Modelled from the spec: `remove(handle)` marks the slot free, increments
its generation, and returns the payload if the handle matched. -/
def remove (m : SlotMap α) (k : Key) : SlotMap α × Option α :=
  match k with
  | Key.null => (m, none)
  | Key.live i g =>
    match m.slots[i]? with
    | some s =>
      if s.gen = g then
        (match s.val with
        | some v => (⟨m.slots.set i ⟨s.gen + 1, none⟩, i :: m.free⟩, some v)
        | none => (m, none))
      else (m, none)
    | none => (m, none)

def containsKey (m : SlotMap α) (k : Key) : Bool :=
  (m.get k).isSome

def len (m : SlotMap α) : Nat :=
  m.slots.countP (fun s => s.val.isSome)

def isEmptySM (m : SlotMap α) : Bool :=
  m.len = 0

def clear : SlotMap α := empty

/-- Live (key, payload) pairs in slot order, tombstoned slots skipped. -/
def iterSM (m : SlotMap α) : List (Key × α) :=
  m.slots.enum.filterMap (fun p =>
    match p.2.val with
    | some v => some (Key.live p.1 p.2.gen, v)
    | none => none)

def keysSM (m : SlotMap α) : List Key :=
  (m.iterSM).map Prod.fst

end SlotMap

/-- `VertexId` from `src/id/vertex_id.rs`: a newtype wrapper over the slot-map
key. -/
structure VertexId where
  key : Key
deriving DecidableEq, Repr

/-- `VertexId::default()` wraps `DefaultKey::default()`. -/
def VertexId.default : VertexId := ⟨Key.null⟩

/-- `VertexId::is_default` from `src/id/vertex_id.rs`. -/
def VertexId.is_default (v : VertexId) : Bool := v = VertexId.default

/-- `EdgeId` from `src/id/edge_id.rs`: a newtype wrapper over the slot-map
key, type-distinct from `VertexId`. -/
structure EdgeId where
  key : Key
deriving DecidableEq, Repr

/-- `EdgeId::default()` wraps `DefaultKey::default()`. -/
def EdgeId.default : EdgeId := ⟨Key.null⟩

/-- `EdgeId::is_default` from `src/id/edge_id.rs`. -/
def EdgeId.is_default (e : EdgeId) : Bool := e = EdgeId.default

/-- `EdgeInfo` from `src/id/edge_info.rs`: the immutable connectivity
record `(edge_id, from, to)`. -/
structure EdgeInfo where
  edge_id : EdgeId
  from_ : VertexId
  to_ : VertexId
deriving DecidableEq, Repr

namespace EdgeInfo

/-- `EdgeInfo::connects_from`. -/
def connects_from (info : EdgeInfo) (v : VertexId) : Bool := info.from_ = v

/-- `EdgeInfo::connects_to`. -/
def connects_to (info : EdgeInfo) (v : VertexId) : Bool := info.to_ = v

/-- `EdgeInfo::connects`. -/
def connects (info : EdgeInfo) (f t : VertexId) : Bool :=
  info.from_ = f && info.to_ = t

/-- `EdgeInfo::involves`. -/
def involves (info : EdgeInfo) (v : VertexId) : Bool :=
  info.from_ = v || info.to_ = v

/-- `EdgeInfo::reverse`. -/
def reverse (info : EdgeInfo) : EdgeInfo :=
  ⟨info.edge_id, info.to_, info.from_⟩

end EdgeInfo

/-- `VertexContainer` from `src/storage/vertex.rs`: a `SlotMap` holding the
vertex payloads. -/
structure VertexContainer (V : Type) where
  data : SlotMap V
deriving DecidableEq, Repr

namespace VertexContainer

variable {V : Type}

/-- `VertexContainer::new`. -/
def new : VertexContainer V := ⟨SlotMap.empty⟩

/-- `VertexContainer::insert`: `VertexId::new(self.data.insert(vertex))`. -/
def insert (c : VertexContainer V) (vertex : V) : VertexContainer V × VertexId :=
  let p := c.data.insert vertex
  (⟨p.1⟩, ⟨p.2⟩)

/-- `VertexContainer::get`: `self.data.get(id.key())`. -/
def get (c : VertexContainer V) (id : VertexId) : Option V :=
  c.data.get id.key

/-- `VertexContainer::get_mut`, as the functional update it performs when the
caller writes through the returned reference. -/
def get_mut_set (c : VertexContainer V) (id : VertexId) (v : V) : VertexContainer V :=
  ⟨c.data.setVal id.key v⟩

/-- `VertexContainer::remove`: `self.data.remove(id.key())`. -/
def remove (c : VertexContainer V) (id : VertexId) : VertexContainer V × Option V :=
  let p := c.data.remove id.key
  (⟨p.1⟩, p.2)

/-- `VertexContainer::contains`. -/
def contains (c : VertexContainer V) (id : VertexId) : Bool :=
  c.data.containsKey id.key

/-- `VertexContainer::len`. -/
def len (c : VertexContainer V) : Nat := c.data.len

/-- `VertexContainer::is_empty`. -/
def is_empty (c : VertexContainer V) : Bool := c.data.isEmptySM

/-- `VertexContainer::clear`. -/
def clearV : VertexContainer V := ⟨SlotMap.clear⟩

end VertexContainer

/-- `EdgeContainer` from `src/storage/edge.rs`: one `SlotMap` for edge
payloads and a second, separately maintained `SlotMap` for the `EdgeInfo`
connectivity records. -/
structure EdgeContainer (E : Type) where
  data : SlotMap E
  connections : SlotMap EdgeInfo
deriving DecidableEq, Repr

namespace EdgeContainer

variable {E : Type}

/-- `EdgeContainer::new`. -/
def new : EdgeContainer E := ⟨SlotMap.empty, SlotMap.empty⟩

/-- `EdgeContainer::insert`: inserts the payload into `data`, the record into
`connections`, and returns the key allocated by `data` (the key allocated by
`connections` is discarded; the stored `EdgeInfo` is not modified). -/
def insert (c : EdgeContainer E) (edge : E) (edge_info : EdgeInfo) :
    EdgeContainer E × EdgeId :=
  let pd := c.data.insert edge
  let pc := c.connections.insert edge_info
  (⟨pd.1, pc.1⟩, ⟨pd.2⟩)

/-- `EdgeContainer::get`: `self.data.get(id.key())`. -/
def get (c : EdgeContainer E) (id : EdgeId) : Option E :=
  c.data.get id.key

/-- `EdgeContainer::get_connection`: `self.connections.get(id.key())`. -/
def get_connection (c : EdgeContainer E) (id : EdgeId) : Option EdgeInfo :=
  c.connections.get id.key

/-- `EdgeContainer::remove`: removes the key from both slot maps and returns
the pair only when both were present. -/
def remove (c : EdgeContainer E) (id : EdgeId) : EdgeContainer E × Option (E × EdgeInfo) :=
  let pe := c.data.remove id.key
  let pi := c.connections.remove id.key
  match pe.2, pi.2 with
  | some e, some i => (⟨pe.1, pi.1⟩, some (e, i))
  | _, _ => (⟨pe.1, pi.1⟩, none)

/-- `EdgeContainer::contains`: `self.data.contains_key(id.key())`. -/
def contains (c : EdgeContainer E) (id : EdgeId) : Bool :=
  c.data.containsKey id.key

/-- `EdgeContainer::len`: `self.data.len()`. -/
def len (c : EdgeContainer E) : Nat := c.data.len

/-- `EdgeContainer::clear`: clears both slot maps. -/
def clearE : EdgeContainer E := ⟨SlotMap.clear, SlotMap.clear⟩

/-- `EdgeContainer::edges_from`: connections whose `from` matches. -/
def edges_from (c : EdgeContainer E) (vertex_id : VertexId) : List EdgeId :=
  ((c.connections.iterSM.filter (fun p => p.2.from_ = vertex_id)).map
    (fun p => EdgeId.mk p.1))

/-- `EdgeContainer::edges_to`: connections whose `to` matches. -/
def edges_to (c : EdgeContainer E) (vertex_id : VertexId) : List EdgeId :=
  ((c.connections.iterSM.filter (fun p => p.2.to_ = vertex_id)).map
    (fun p => EdgeId.mk p.1))

/-- `EdgeContainer::edges_involving`: connections involving the vertex. -/
def edges_involving (c : EdgeContainer E) (vertex_id : VertexId) : List EdgeId :=
  ((c.connections.iterSM.filter (fun p => p.2.involves vertex_id)).map
    (fun p => EdgeId.mk p.1))

/-- `EdgeContainer::edges_adjacent` delegates to `edges_involving`. -/
def edges_adjacent (c : EdgeContainer E) (vertex_id : VertexId) : List EdgeId :=
  c.edges_involving vertex_id

/-- `EdgeContainer::has_edge_between`. -/
def has_edge_between (c : EdgeContainer E) (f t : VertexId) : Bool :=
  c.connections.iterSM.any (fun p => p.2.connects f t)

/-- `EdgeContainer::edges_between`. -/
def edges_between (c : EdgeContainer E) (f t : VertexId) : List EdgeId :=
  ((c.connections.iterSM.filter (fun p => p.2.connects f t)).map
    (fun p => EdgeId.mk p.1))

end EdgeContainer

section Indices

variable {K V : Type} [DecidableEq K] [DecidableEq V]

/-- Association-list lookup standing for `HashMap::get` / `BTreeMap::get`. -/
def lookupA : List (K × List V) → K → Option (List V)
  | [], _ => none
  | kv :: rest, k => if kv.1 = k then some kv.2 else lookupA rest k

/-- `map.entry(key).or_default().insert(value)`: add `value` to the key's
de-duplicated set, creating the entry if needed; the Bool is `HashSet::insert`'s
"newly added" result. -/
def mapInsert : List (K × List V) → K → V → List (K × List V) × Bool
  | [], k, v => ([(k, [v])], true)
  | kv :: rest, k, v =>
    if kv.1 = k then
      if v ∈ kv.2 then (kv :: rest, false) else ((kv.1, kv.2 ++ [v]) :: rest, true)
    else
      let p := mapInsert rest k v
      (kv :: p.1, p.2)

/-- The shared body of `HashIndex::remove` and `RangeIndex::remove`: if the key
is present, remove the value from its set and drop the key when the set
becomes empty; the Bool is `HashSet::remove`'s "was present" result. -/
def mapRemovePair : List (K × List V) → K → V → List (K × List V) × Bool
  | [], _, _ => ([], false)
  | kv :: rest, k, v =>
    if kv.1 = k then
      let s := kv.2.filter (fun x => x ≠ v)
      if s.isEmpty then (rest, decide (v ∈ kv.2)) else ((kv.1, s) :: rest, decide (v ∈ kv.2))
    else
      let p := mapRemovePair rest k v
      (kv :: p.1, p.2)

/-- `HashIndex` from `src/index/hash.rs`: an exact-match multimap
`HashMap<K, HashSet<V>>`, here an association list of de-duplicated
value sets. -/
structure HashIndex (K V : Type) where
  map : List (K × List V)

namespace HashIndex

/-- `HashIndex::new`. -/
def new : HashIndex K V := ⟨[]⟩

/-- `HashIndex::insert`. -/
def insert (idx : HashIndex K V) (key : K) (value : V) : HashIndex K V × Bool :=
  let p := mapInsert idx.map key value
  (⟨p.1⟩, p.2)

/-- `HashIndex::remove`. -/
def remove (idx : HashIndex K V) (key : K) (value : V) : HashIndex K V × Bool :=
  let p := mapRemovePair idx.map key value
  (⟨p.1⟩, p.2)

/-- `HashIndex::remove_all`. -/
def remove_all (idx : HashIndex K V) (key : K) : HashIndex K V × Option (List V) :=
  (⟨idx.map.filter (fun kv => kv.1 ≠ key)⟩, lookupA idx.map key)

/-- `HashIndex::get`: empty sequence for unknown keys. -/
def get (idx : HashIndex K V) (key : K) : List V :=
  (lookupA idx.map key).getD []

/-- `HashIndex::contains`. -/
def contains (idx : HashIndex K V) (key : K) (value : V) : Bool :=
  match lookupA idx.map key with
  | some s => value ∈ s
  | none => false

/-- `HashIndex::contains_key`. -/
def contains_key (idx : HashIndex K V) (key : K) : Bool :=
  (lookupA idx.map key).isSome

/-- `HashIndex::len_of`. -/
def len_of (idx : HashIndex K V) (key : K) : Nat :=
  match lookupA idx.map key with
  | some s => s.length
  | none => 0

/-- `HashIndex::keys_len`. -/
def keys_len (idx : HashIndex K V) : Nat := idx.map.length

/-- `HashIndex::total_values_len`. -/
def total_values_len (idx : HashIndex K V) : Nat :=
  (idx.map.map (fun kv => kv.2.length)).sum

end HashIndex

end Indices

section RangeIdx

variable {K V : Type} [LinearOrder K] [DecidableEq V]

/-- `BTreeMap` entry insertion keeping keys in ascending order. -/
def mapInsertSorted : List (K × List V) → K → V → List (K × List V) × Bool
  | [], k, v => ([(k, [v])], true)
  | kv :: rest, k, v =>
    if k < kv.1 then ((k, [v]) :: kv :: rest, true)
    else if kv.1 = k then
      if v ∈ kv.2 then (kv :: rest, false) else ((kv.1, kv.2 ++ [v]) :: rest, true)
    else
      let p := mapInsertSorted rest k v
      (kv :: p.1, p.2)

/-- A range bound: Rust's `std::ops::Bound`. -/
inductive RBound (K : Type) where
  | incl (k : K)
  | excl (k : K)
  | unb

/-- Does `k` satisfy a start bound? -/
def RBound.satLower : RBound K → K → Bool
  | RBound.incl a, k => a ≤ k
  | RBound.excl a, k => a < k
  | RBound.unb, _ => true

/-- Does `k` satisfy an end bound? -/
def RBound.satUpper : RBound K → K → Bool
  | RBound.incl a, k => k ≤ a
  | RBound.excl a, k => k < a
  | RBound.unb, _ => true

/-- `RangeIndex` from `src/index/range.rs`: an ordered multimap
`BTreeMap<K, HashSet<V>>`, here an association list sorted by key. -/
structure RangeIndex (K V : Type) where
  map : List (K × List V)

namespace RangeIndex

/-- `RangeIndex::new`. -/
def new : RangeIndex K V := ⟨[]⟩

/-- `RangeIndex::insert`. -/
def insert (idx : RangeIndex K V) (key : K) (value : V) : RangeIndex K V × Bool :=
  let p := mapInsertSorted idx.map key value
  (⟨p.1⟩, p.2)

/-- `RangeIndex::remove`. -/
def remove (idx : RangeIndex K V) (key : K) (value : V) : RangeIndex K V × Bool :=
  let p := mapRemovePair idx.map key value
  (⟨p.1⟩, p.2)

/-- `RangeIndex::get`. -/
def get (idx : RangeIndex K V) (key : K) : List V :=
  (lookupA idx.map key).getD []

/-- `RangeIndex::contains`. -/
def contains (idx : RangeIndex K V) (key : K) (value : V) : Bool :=
  match lookupA idx.map key with
  | some s => value ∈ s
  | none => false

/-- `RangeIndex::contains_key`. -/
def contains_key (idx : RangeIndex K V) (key : K) : Bool :=
  (lookupA idx.map key).isSome

/-- `RangeIndex::len_of`. -/
def len_of (idx : RangeIndex K V) (key : K) : Nat :=
  match lookupA idx.map key with
  | some s => s.length
  | none => 0

/-- `RangeIndex::range`: `BTreeMap::range` over an arbitrary pair of bounds,
yielding the value sets of all keys inside the bounds in ascending key
order. -/
def range (idx : RangeIndex K V) (lo hi : RBound K) : List V :=
  (idx.map.filter (fun kv => lo.satLower kv.1 && hi.satUpper kv.1)).flatMap
    (fun kv => kv.2)

/-- `RangeIndex::from`: `range(key..)`. -/
def fromKey (idx : RangeIndex K V) (key : K) : List V :=
  idx.range (RBound.incl key) RBound.unb

/-- `RangeIndex::to`: `range(..=key)`. -/
def toKey (idx : RangeIndex K V) (key : K) : List V :=
  idx.range RBound.unb (RBound.incl key)

/-- `RangeIndex::after`: `(Bound::Excluded(key), Bound::Unbounded)`. -/
def after (idx : RangeIndex K V) (key : K) : List V :=
  idx.range (RBound.excl key) RBound.unb

/-- `RangeIndex::before`: `(Bound::Unbounded, Bound::Excluded(key))`. -/
def before (idx : RangeIndex K V) (key : K) : List V :=
  idx.range RBound.unb (RBound.excl key)

/-- `RangeIndex::range_bounds`: `(min_key, max_key)` or `None` when empty. -/
def range_bounds (idx : RangeIndex K V) : Option (K × K) :=
  match idx.map.head?, idx.map.getLast? with
  | some a, some b => some (a.1, b.1)
  | _, _ => none

end RangeIndex

end RangeIdx

/-- The tagged scalar `Value` of `graph_api_lib` (external crate), as the
closed sum the dispatcher in `src/index/simple_query.rs` matches on.  Float
payloads are never inspected by this repository's code (they fall into the
wildcard arm), so they carry no data here. -/
inductive Value where
  | Str (s : String)
  | I8 (v : Int)
  | I16 (v : Int)
  | I32 (v : Int)
  | I64 (v : Int)
  | U8 (v : Nat)
  | U16 (v : Nat)
  | U32 (v : Nat)
  | U64 (v : Nat)
  | BoolV (b : Bool)
  | F32
  | F64
deriving DecidableEq, Repr

/-- Rust's `u64 as i64` cast: reinterpret modulo 2^64 into the signed range. -/
def u64AsI64 (v : Nat) : Int :=
  if v % 2 ^ 64 < 2 ^ 63 then ((v % 2 ^ 64 : Nat) : Int)
  else ((v % 2 ^ 64 : Nat) : Int) - 2 ^ 64

/-- `SimpleVertexQuery` from `src/index/simple_query.rs`: a string hash
index, an integer hash index and an integer range index (sorted by key),
all over `VertexId`. -/
structure SimpleVertexQuery where
  string_index : List (String × List VertexId)
  int_index : List (Int × List VertexId)
  int_range_index : List (Int × List VertexId)
deriving Repr

namespace SimpleVertexQuery

/-- `SimpleVertexQuery::new`. -/
def new : SimpleVertexQuery := ⟨[], [], []⟩

/-- `SimpleVertexQuery::insert_string`. -/
def insert_string (q : SimpleVertexQuery) (value : String) (vertex_id : VertexId) :
    SimpleVertexQuery :=
  { q with string_index := (mapInsert q.string_index value vertex_id).1 }

/-- `SimpleVertexQuery::insert_int`: populates both the hash and the range
index. -/
def insert_int (q : SimpleVertexQuery) (value : Int) (vertex_id : VertexId) :
    SimpleVertexQuery :=
  { q with
    int_index := (mapInsert q.int_index value vertex_id).1
    int_range_index := (mapInsertSorted q.int_range_index value vertex_id).1 }

/-- `SimpleVertexQuery::query_string`. -/
def query_string (q : SimpleVertexQuery) (value : String) : List VertexId :=
  match lookupA q.string_index value with
  | some s => s
  | none => []

/-- `SimpleVertexQuery::query_int`. -/
def query_int (q : SimpleVertexQuery) (value : Int) : List VertexId :=
  match lookupA q.int_index value with
  | some s => s
  | none => []

/-- `SimpleVertexQuery::range_int`: `BTreeMap::range(start..end)`, the
half-open interval. -/
def range_int (q : SimpleVertexQuery) (start stop : Int) : List VertexId :=
  (q.int_range_index.filter (fun kv => start ≤ kv.1 && kv.1 < stop)).flatMap
    (fun kv => kv.2)

/-- `SimpleVertexQuery::query_value`: the tagged-value dispatcher. -/
def query_value (q : SimpleVertexQuery) : Value → List VertexId
  | Value.Str s => q.query_string s
  | Value.I8 v => q.query_int v
  | Value.I16 v => q.query_int v
  | Value.I32 v => q.query_int v
  | Value.I64 v => q.query_int v
  | Value.U8 v => q.query_int (v : Int)
  | Value.U16 v => q.query_int (v : Int)
  | Value.U32 v => q.query_int (v : Int)
  | Value.U64 v => q.query_int (u64AsI64 v)
  | _ => []

/-- `SimpleVertexQuery::range_value`: dispatch on the `Range<Value>` pair;
only same-width integer pairs are delegated, all other combinations yield
the empty sequence. -/
def range_value (q : SimpleVertexQuery) : Value × Value → List VertexId
  | (Value.I8 a, Value.I8 b) => q.range_int a b
  | (Value.I16 a, Value.I16 b) => q.range_int a b
  | (Value.I32 a, Value.I32 b) => q.range_int a b
  | (Value.I64 a, Value.I64 b) => q.range_int a b
  | (Value.U8 a, Value.U8 b) => q.range_int (a : Int) (b : Int)
  | (Value.U16 a, Value.U16 b) => q.range_int (a : Int) (b : Int)
  | (Value.U32 a, Value.U32 b) => q.range_int (a : Int) (b : Int)
  | (Value.U64 a, Value.U64 b) => q.range_int (u64AsI64 a) (u64AsI64 b)
  | _ => []

/-- One `retain` pass of `SimpleVertexQuery::remove_vertex`: remove the id
from every key's set and keep only the keys whose set stays non-empty. -/
def retainRemove (m : List (K0 × List VertexId)) (vertex_id : VertexId) :
    List (K0 × List VertexId) :=
  (m.map (fun kv => (kv.1, kv.2.filter (fun x => x ≠ vertex_id)))).filter
    (fun kv => !kv.2.isEmpty)

/-- `SimpleVertexQuery::remove_vertex`: purge the id from all three indices. -/
def remove_vertex (q : SimpleVertexQuery) (vertex_id : VertexId) : SimpleVertexQuery :=
  { string_index := retainRemove q.string_index vertex_id
    int_index := retainRemove q.int_index vertex_id
    int_range_index := retainRemove q.int_range_index vertex_id }

/-- `SimpleVertexQuery::clear`. -/
def clearQ : SimpleVertexQuery := ⟨[], [], []⟩

end SimpleVertexQuery

/-- `SlotMapGraph` from `src/graph.rs`: vertex container, edge container and
the query facade. -/
structure SlotMapGraph (V E : Type) where
  vertices : VertexContainer V
  edges : EdgeContainer E
  vertex_query : SimpleVertexQuery

namespace SlotMapGraph

variable {V E : Type}

/-- `SlotMapGraph::new`. -/
def new : SlotMapGraph V E :=
  ⟨VertexContainer.new, EdgeContainer.new, SimpleVertexQuery.new⟩

/-- `Graph::add_vertex`. -/
def add_vertex (g : SlotMapGraph V E) (vertex : V) : SlotMapGraph V E × VertexId :=
  let p := g.vertices.insert vertex
  ({ g with vertices := p.1 }, p.2)

/-- `Graph::add_edge`: builds `EdgeInfo::new(EdgeId::default(), from, to)`
and inserts it alongside the payload. -/
def add_edge (g : SlotMapGraph V E) (f t : VertexId) (edge : E) :
    SlotMapGraph V E × EdgeId :=
  let edge_info : EdgeInfo := ⟨EdgeId.default, f, t⟩
  let p := g.edges.insert edge edge_info
  ({ g with edges := p.1 }, p.2)

/-- `SlotMapGraph::index_vertex_string` delegates to the facade. -/
def index_vertex_string (g : SlotMapGraph V E) (vertex_id : VertexId) (value : String) :
    SlotMapGraph V E :=
  { g with vertex_query := g.vertex_query.insert_string value vertex_id }

/-- `SlotMapGraph::index_vertex_int` delegates to the facade. -/
def index_vertex_int (g : SlotMapGraph V E) (vertex_id : VertexId) (value : Int) :
    SlotMapGraph V E :=
  { g with vertex_query := g.vertex_query.insert_int value vertex_id }

/-- `SlotMapGraph::vertex_count`. -/
def vertex_count (g : SlotMapGraph V E) : Nat := g.vertices.len

/-- `SlotMapGraph::edge_count`. -/
def edge_count (g : SlotMapGraph V E) : Nat := g.edges.len

/-- `SlotMapGraph::contains_vertex`. -/
def contains_vertex (g : SlotMapGraph V E) (vertex_id : VertexId) : Bool :=
  g.vertices.contains vertex_id

/-- `SlotMapGraph::contains_edge`. -/
def contains_edge (g : SlotMapGraph V E) (edge_id : EdgeId) : Bool :=
  g.edges.contains edge_id

/-- `Graph::clear` for `SlotMapGraph`: clears vertices and edges (and only
those two fields). -/
def clear (g : SlotMapGraph V E) : SlotMapGraph V E :=
  { g with vertices := VertexContainer.clearV, edges := EdgeContainer.clearE }

/-- `SupportsClear::clear` for `SlotMapGraph`: same body as `Graph::clear`. -/
def clearSupports (g : SlotMapGraph V E) : SlotMapGraph V E :=
  { g with vertices := VertexContainer.clearV, edges := EdgeContainer.clearE }

/-- `SupportsElementRemoval::remove_vertex`: materialize the incident edges
(`edges_adjacent`), remove each of them, then remove the vertex slot. -/
def remove_vertex (g : SlotMapGraph V E) (id : VertexId) :
    SlotMapGraph V E × Option V :=
  let edges_to_remove := g.edges.edges_adjacent id
  let edges' := edges_to_remove.foldl (fun c e => (EdgeContainer.remove c e).1) g.edges
  let p := g.vertices.remove id
  ({ g with vertices := p.1, edges := edges' }, p.2)

/-- `SupportsElementRemoval::remove_edge`. -/
def remove_edge (g : SlotMapGraph V E) (edge : EdgeId) :
    SlotMapGraph V E × Option E :=
  let p := g.edges.remove edge
  ({ g with edges := p.1 }, p.2.map Prod.fst)

end SlotMapGraph

/-! Concrete scenarios used by the claims about `SlotMapGraph`. -/

/-- Fresh graph with three vertices (payloads `va vb vc`) and the two edges
A→B and A→C (payloads `e1 e2`); returns the graph and the ids A, B, C. -/
def graphABC (va vb vc e1 e2 : Nat) :
    SlotMapGraph Nat Nat × VertexId × VertexId × VertexId :=
  let p1 := (SlotMapGraph.new (V := Nat) (E := Nat)).add_vertex va
  let p2 := p1.1.add_vertex vb
  let p3 := p2.1.add_vertex vc
  let q1 := p3.1.add_edge p1.2 p2.2 e1
  let q2 := q1.1.add_edge p1.2 p3.2 e2
  (q2.1, p1.2, p2.2, p3.2)

/-- Fresh graph with two vertices and one edge A→B; returns the graph, the
edge id, and the ids A and B. -/
def graphOneEdge : SlotMapGraph Nat Nat × EdgeId × VertexId × VertexId :=
  let p1 := (SlotMapGraph.new (V := Nat) (E := Nat)).add_vertex 0
  let p2 := p1.1.add_vertex 1
  let q := p2.1.add_edge p1.2 p2.2 7
  (q.1, q.2, p1.2, p2.2)

/-- The range index holding the integer keys 0,10,…,90, one value per key
(the key itself). -/
def tensIndex : RangeIndex Int Int :=
  [(0 : Int), 10, 20, 30, 40, 50, 60, 70, 80, 90].foldl
    (fun idx k => (idx.insert k k).1) RangeIndex.new

/-- Fresh graph with one vertex (payload 3) indexed under the string "a" and
the integer 42; returns the graph and the vertex id. -/
def facadeDemo : SlotMapGraph Nat Nat × VertexId :=
  let p := (SlotMapGraph.new (V := Nat) (E := Nat)).add_vertex 3
  ((p.1.index_vertex_string p.2 "a").index_vertex_int p.2 42, p.2)

/-- Two concrete live vertex ids. -/
def vidA : VertexId := ⟨Key.live 0 0⟩

/-- Second concrete live vertex id. -/
def vidB : VertexId := ⟨Key.live 1 0⟩

/-- A facade holding both ids under the string "a" and the integer 42. -/
def facadePair : SimpleVertexQuery :=
  ((((SimpleVertexQuery.new.insert_string "a" vidA).insert_string "a" vidB).insert_int
    42 vidA).insert_int 42 vidB)

/-- A vertex-container operation, for stating properties over arbitrary
operation sequences. -/
inductive VOp (V : Type) where
  | ins (v : V)
  | del (id : VertexId)
  | set (id : VertexId) (v : V)
deriving DecidableEq

/-- Run one operation on a vertex container. -/
def VertexContainer.applyOp {V : Type} (c : VertexContainer V) : VOp V → VertexContainer V
  | VOp.ins v => (c.insert v).1
  | VOp.del id => (c.remove id).1
  | VOp.set id v => c.get_mut_set id v

/-- Run a sequence of operations on a vertex container. -/
def VertexContainer.applyOps {V : Type} (c : VertexContainer V) (ops : List (VOp V)) :
    VertexContainer V :=
  ops.foldl VertexContainer.applyOp c

/-- Slot `i` exists and is tombstoned (vacant). -/
def SlotMap.slotVacant {α : Type} (m : SlotMap α) (i : Nat) : Bool :=
  match m.slots[i]? with
  | some s => s.val.isNone
  | none => false

/-- Well-formedness of the free list: every free index names an existing
vacant slot, and no index is listed twice. -/
def SlotMap.WF {α : Type} (m : SlotMap α) : Prop :=
  (m.free.all (fun i => m.slotVacant i) = true) ∧ m.free.Nodup

/-- The free-list well-formedness predicate is decidable, so concrete
instances can be checked by evaluation. -/
instance {α : Type} [DecidableEq α] (m : SlotMap α) : Decidable m.WF :=
  inferInstanceAs (Decidable ((m.free.all (fun i => m.slotVacant i) = true) ∧ m.free.Nodup))

/-- Slot `i` exists and its generation is at least `g`. -/
def SlotMap.genGE {α : Type} (m : SlotMap α) (i g : Nat) : Prop :=
  ∃ s, m.slots[i]? = some s ∧ g ≤ s.gen

/-- An edge-container operation, for stating properties over arbitrary
operation sequences. -/
inductive EOp (E : Type) where
  | ins (e : E) (info : EdgeInfo)
  | del (id : EdgeId)
  | clr
deriving DecidableEq

/-- Run one operation on an edge container. -/
def EdgeContainer.applyOp {E : Type} (c : EdgeContainer E) : EOp E → EdgeContainer E
  | EOp.ins e info => (c.insert e info).1
  | EOp.del id => (c.remove id).1
  | EOp.clr => EdgeContainer.clearE

/-- Run a sequence of operations on an edge container, starting from the
empty container. -/
def EdgeContainer.runOps {E : Type} (ops : List (EOp E)) : EdgeContainer E :=
  ops.foldl EdgeContainer.applyOp EdgeContainer.new

/-- The observable shape of a slot: its generation and whether it is
occupied. -/
def Slot.shape {α : Type} (s : Slot α) : Nat × Bool := (s.gen, s.val.isSome)

/-- Two slot maps are in lockstep: same slot generations and occupancy, and
the same free list.  This is the twin-map invariant of `EdgeContainer`. -/
def ShapeSync {α β : Type} (m1 : SlotMap α) (m2 : SlotMap β) : Prop :=
  m1.slots.map Slot.shape = m2.slots.map Slot.shape ∧ m1.free = m2.free

/-! Lemmas about the multimap association-list operations. -/

section MapLemmas

variable {K V : Type} [DecidableEq K] [DecidableEq V]

theorem lookupA_cons (kv : K × List V) (rest : List (K × List V)) (k : K) :
    lookupA (kv :: rest) k = if kv.1 = k then some kv.2 else lookupA rest k := rfl

theorem lookupA_eq_none_of_not_mem (m : List (K × List V)) (k : K)
    (h : k ∉ m.map Prod.fst) : lookupA m k = none := by
  induction m with
  | nil => rfl
  | cons kv rest ih =>
    rw [List.map_cons, List.mem_cons] at h
    push_neg at h
    rw [lookupA_cons, if_neg (fun he => h.1 he.symm)]
    exact ih h.2

/-- Inserting the same pair twice: the first insertion reports "new", the
second reports "already present", and the key's set gains the value exactly
once. -/
theorem mapInsert_twice (m : List (K × List V)) (k : K) (v : V)
    (hni : v ∉ ((lookupA m k).getD [])) :
    (mapInsert m k v).2 = true
    ∧ (mapInsert (mapInsert m k v).1 k v).2 = false
    ∧ lookupA (mapInsert (mapInsert m k v).1 k v).1 k =
        some (((lookupA m k).getD []) ++ [v]) := by
  induction m with
  | nil => simp [mapInsert, lookupA]
  | cons kv rest ih =>
    by_cases hk : kv.1 = k
    · have hl : lookupA (kv :: rest) k = some kv.2 := by simp [lookupA, hk]
      rw [hl] at hni
      simp only [Option.getD_some] at hni
      simp [mapInsert, lookupA, hk, hni, hl]
    · have hl : lookupA (kv :: rest) k = lookupA rest k := by simp [lookupA, hk]
      rw [hl] at hni
      have h3 := ih hni
      simp [mapInsert, lookupA, hk, hl, h3.1, h3.2.1, h3.2.2]

theorem mapRemovePair_ret (m : List (K × List V)) (k : K) (v : V) :
    (mapRemovePair m k v).2 = decide (v ∈ (lookupA m k).getD []) := by
  induction m with
  | nil => simp [mapRemovePair, lookupA]
  | cons kv rest ih =>
    by_cases hk : kv.1 = k
    · rw [lookupA_cons, if_pos hk, Option.getD_some]
      simp only [mapRemovePair, if_pos hk]
      split <;> rfl
    · rw [lookupA_cons, if_neg hk]
      simp only [mapRemovePair, if_neg hk]
      exact ih

theorem mapRemovePair_noEmpty (m : List (K × List V)) (k : K) (v : V)
    (h : ∀ kv ∈ m, kv.2 ≠ []) :
    ∀ kv ∈ (mapRemovePair m k v).1, kv.2 ≠ [] := by
  induction m with
  | nil => intro kv hkv; simp [mapRemovePair] at hkv
  | cons kv rest ih =>
    intro x hx
    by_cases hk : kv.1 = k
    · by_cases he : (kv.2.filter (fun y => y ≠ v)).isEmpty
      · simp only [mapRemovePair, if_pos hk, if_pos he] at hx
        exact h x (List.mem_cons_of_mem kv hx)
      · simp only [mapRemovePair, if_pos hk, if_neg he] at hx
        rcases List.mem_cons.1 hx with h1 | h2
        · rw [h1]
          simpa [List.isEmpty_iff] using he
        · exact h x (List.mem_cons_of_mem kv h2)
    · simp only [mapRemovePair, if_neg hk] at hx
      rcases List.mem_cons.1 hx with h1 | h2
      · rw [h1]; exact h kv (List.mem_cons_self kv rest)
      · exact ih (fun y hy => h y (List.mem_cons_of_mem kv hy)) x h2

theorem mapInsert_noEmpty (m : List (K × List V)) (k : K) (v : V)
    (h : ∀ kv ∈ m, kv.2 ≠ []) :
    ∀ kv ∈ (mapInsert m k v).1, kv.2 ≠ [] := by
  induction m with
  | nil =>
    intro x hx
    simp only [mapInsert, List.mem_singleton] at hx
    rw [hx]; simp
  | cons kv rest ih =>
    intro x hx
    by_cases hk : kv.1 = k
    · by_cases hv : v ∈ kv.2
      · simp only [mapInsert, if_pos hk, if_pos hv] at hx
        exact h x hx
      · simp only [mapInsert, if_pos hk, if_neg hv] at hx
        rcases List.mem_cons.1 hx with h1 | h2
        · rw [h1]; simp
        · exact h x (List.mem_cons_of_mem kv h2)
    · simp only [mapInsert, if_neg hk] at hx
      rcases List.mem_cons.1 hx with h1 | h2
      · rw [h1]; exact h kv (List.mem_cons_self kv rest)
      · exact ih (fun y hy => h y (List.mem_cons_of_mem kv hy)) x h2

/-- Removing the only value of a key deletes the key entry itself. -/
theorem mapRemovePair_last (m : List (K × List V)) (k : K) (v : V)
    (hnd : (m.map Prod.fst).Nodup) (hl : lookupA m k = some [v]) :
    lookupA (mapRemovePair m k v).1 k = none := by
  induction m with
  | nil => simp [lookupA] at hl
  | cons kv rest ih =>
    rw [List.map_cons, List.nodup_cons] at hnd
    by_cases hk : kv.1 = k
    · have h2 : kv.2 = [v] := by
        rw [lookupA_cons, if_pos hk] at hl
        exact Option.some_injective _ hl
      have he : (kv.2.filter (fun y => y ≠ v)).isEmpty := by
        rw [h2]; simp
      simp only [mapRemovePair, if_pos hk, if_pos he]
      apply lookupA_eq_none_of_not_mem
      rw [← hk]
      exact hnd.1
    · rw [lookupA_cons, if_neg hk] at hl
      simp only [mapRemovePair, if_neg hk]
      rw [lookupA_cons, if_neg hk]
      exact ih hnd.2 hl

theorem hashContains_eq (idx : HashIndex K V) (k : K) (v : V) :
    idx.contains k v = decide (v ∈ (lookupA idx.map k).getD []) := by
  unfold HashIndex.contains
  cases lookupA idx.map k <;> simp

theorem hashLenOf_eq (idx : HashIndex K V) (k : K) :
    idx.len_of k = ((lookupA idx.map k).getD []).length := by
  unfold HashIndex.len_of
  cases lookupA idx.map k <;> simp

end MapLemmas

section SortedMapLemmas

variable {K V : Type} [LinearOrder K] [DecidableEq V]

theorem lookupA_eq_none_of_lt (m : List (K × List V)) (k : K)
    (h : ∀ kv ∈ m, k < kv.1) : lookupA m k = none := by
  induction m with
  | nil => rfl
  | cons kv rest ih =>
    have hne : kv.1 ≠ k := ne_of_gt (h kv (by simp))
    rw [lookupA_cons, if_neg hne]
    exact ih (fun x hx => h x (List.mem_cons_of_mem kv hx))

/-- Double insertion into the sorted multimap, analogous to
`mapInsert_twice`; the map must be sorted by key as `BTreeMap` guarantees. -/
theorem mapInsertSorted_twice (m : List (K × List V)) (k : K) (v : V)
    (hs : List.Chain' (· < ·) (m.map Prod.fst))
    (hni : v ∉ ((lookupA m k).getD [])) :
    (mapInsertSorted m k v).2 = true
    ∧ (mapInsertSorted (mapInsertSorted m k v).1 k v).2 = false
    ∧ lookupA (mapInsertSorted (mapInsertSorted m k v).1 k v).1 k =
        some (((lookupA m k).getD []) ++ [v]) := by
  induction m with
  | nil => simp [mapInsertSorted, lookupA]
  | cons kv rest ih =>
    rw [List.map_cons] at hs
    by_cases hlt : k < kv.1
    · have hall : ∀ x ∈ kv :: rest, k < x.1 := by
        intro x hx
        rcases List.mem_cons.1 hx with h1 | h2
        · rw [h1]; exact hlt
        · have hp := (List.chain'_iff_pairwise.1 hs)
          have := (List.pairwise_cons.1 hp).1 x.1 (List.mem_map_of_mem Prod.fst h2)
          exact lt_trans hlt this
      have hnone : lookupA (kv :: rest) k = none := lookupA_eq_none_of_lt _ _ hall
      rw [hnone]
      simp [mapInsertSorted, lookupA, hlt, lt_irrefl]
    · by_cases hk : kv.1 = k
      · have hl : lookupA (kv :: rest) k = some kv.2 := by simp [lookupA, hk]
        rw [hl] at hni
        simp only [Option.getD_some] at hni
        rw [hl]
        simp [mapInsertSorted, lookupA, hlt, hk, hni]
      · have hl : lookupA (kv :: rest) k = lookupA rest k := by simp [lookupA, hk]
        rw [hl] at hni ⊢
        have h3 := ih (List.Chain'.tail hs) hni
        simp [mapInsertSorted, lookupA, hlt, hk, h3.1, h3.2.1, h3.2.2]

theorem mapInsertSorted_noEmpty (m : List (K × List V)) (k : K) (v : V)
    (h : ∀ kv ∈ m, kv.2 ≠ []) :
    ∀ kv ∈ (mapInsertSorted m k v).1, kv.2 ≠ [] := by
  induction m with
  | nil =>
    intro x hx
    simp only [mapInsertSorted, List.mem_singleton] at hx
    rw [hx]; simp
  | cons kv rest ih =>
    intro x hx
    by_cases hlt : k < kv.1
    · simp only [mapInsertSorted, if_pos hlt] at hx
      rcases List.mem_cons.1 hx with h1 | h2
      · rw [h1]; simp
      · exact h x h2
    · by_cases hk : kv.1 = k
      · by_cases hv : v ∈ kv.2
        · simp only [mapInsertSorted, if_neg hlt, if_pos hk, if_pos hv] at hx
          exact h x hx
        · simp only [mapInsertSorted, if_neg hlt, if_pos hk, if_neg hv] at hx
          rcases List.mem_cons.1 hx with h1 | h2
          · rw [h1]; simp
          · exact h x (List.mem_cons_of_mem kv h2)
      · simp only [mapInsertSorted, if_neg hlt, if_neg hk] at hx
        rcases List.mem_cons.1 hx with h1 | h2
        · rw [h1]; exact h kv (List.mem_cons_self kv rest)
        · exact ih (fun y hy => h y (List.mem_cons_of_mem kv hy)) x h2

theorem rangeContains_eq (idx : RangeIndex K V) (k : K) (v : V) :
    idx.contains k v = decide (v ∈ (lookupA idx.map k).getD []) := by
  unfold RangeIndex.contains
  cases lookupA idx.map k <;> simp

theorem rangeLenOf_eq (idx : RangeIndex K V) (k : K) :
    idx.len_of k = ((lookupA idx.map k).getD []).length := by
  unfold RangeIndex.len_of
  cases lookupA idx.map k <;> simp

end SortedMapLemmas

/-- Claim C1: the `EdgeInfo` stored for a returned edge id `e` does NOT carry `e`
in its `edge_id` field: `add_edge` constructs the record with
`EdgeId::default()` and `EdgeContainer::insert` never overwrites it, so
`get_connection(e)` yields a record whose `edge_id` is the default sentinel,
distinct from the returned id. -/
theorem add_edge_stores_default_edge_id :
    (graphOneEdge.1.edges.get_connection graphOneEdge.2.1).map EdgeInfo.edge_id =
      some EdgeId.default
    ∧ graphOneEdge.2.1 ≠ EdgeId.default
    ∧ (graphOneEdge.1.edges.get_connection graphOneEdge.2.1).map EdgeInfo.edge_id ≠
      some graphOneEdge.2.1 := by
  refine ⟨by decide, by decide, by decide⟩

/-- Claim C3: removing vertex A from a fresh graph with vertices A, B, C and
exactly the edges A→B, A→C removes both incident edges and the vertex slot:
the edge count drops from 2 to 0, A is gone, B and C remain. -/
theorem cascade_vertex_removal (va vb vc e1 e2 : Nat) :
    (graphABC va vb vc e1 e2).1.edge_count = 2
    ∧ ((graphABC va vb vc e1 e2).1.remove_vertex (graphABC va vb vc e1 e2).2.1).1.edge_count = 0
    ∧ ((graphABC va vb vc e1 e2).1.remove_vertex
        (graphABC va vb vc e1 e2).2.1).1.contains_vertex (graphABC va vb vc e1 e2).2.1 = false
    ∧ ((graphABC va vb vc e1 e2).1.remove_vertex
        (graphABC va vb vc e1 e2).2.1).1.contains_vertex (graphABC va vb vc e1 e2).2.2.1 = true
    ∧ ((graphABC va vb vc e1 e2).1.remove_vertex
        (graphABC va vb vc e1 e2).2.1).1.contains_vertex (graphABC va vb vc e1 e2).2.2.2 = true := by
  exact ⟨rfl, rfl, rfl, rfl, rfl⟩

/-- Claim C8: on the index holding the multiples of 10 below 100,
`range(20..=50)` yields exactly the values of keys 20,30,40,50;
`range(20..50)` those of 20,30,40; `before(50)` those of 0,10,20,30,40;
`after(50)` those of 60,70,80,90 — each in ascending key order. -/
theorem range_index_boundary_correctness :
    tensIndex.range (RBound.incl 20) (RBound.incl 50) = [20, 30, 40, 50]
    ∧ tensIndex.range (RBound.incl 20) (RBound.excl 50) = [20, 30, 40]
    ∧ tensIndex.before 50 = [0, 10, 20, 30, 40]
    ∧ tensIndex.after 50 = [60, 70, 80, 90] := by
  refine ⟨by decide, by decide, by decide, by decide⟩

/-- Claim C6: for both `HashIndex` and `RangeIndex`, inserting a pair `(k, v)`
the index does not contain returns `true`, inserting it again returns
`false`, and afterwards `len_of(k)` has grown by exactly one and `v` is
counted exactly once under `k` (1, not 2).  The `RangeIndex` conjunct
assumes the `BTreeMap` key-sortedness invariant. -/
theorem multimap_insert_idempotent {K V : Type} [LinearOrder K] [DecidableEq V] :
    (∀ (idx : HashIndex K V) (k : K) (v : V), idx.contains k v = false →
      (idx.insert k v).2 = true
      ∧ ((idx.insert k v).1.insert k v).2 = false
      ∧ ((idx.insert k v).1.insert k v).1.len_of k = idx.len_of k + 1
      ∧ (((idx.insert k v).1.insert k v).1.get k).count v = 1)
    ∧ (∀ (idx : RangeIndex K V) (k : K) (v : V),
        List.Chain' (· < ·) (idx.map.map Prod.fst) → idx.contains k v = false →
      (idx.insert k v).2 = true
      ∧ ((idx.insert k v).1.insert k v).2 = false
      ∧ ((idx.insert k v).1.insert k v).1.len_of k = idx.len_of k + 1
      ∧ (((idx.insert k v).1.insert k v).1.get k).count v = 1) := by
  constructor
  · intro idx k v hc
    rw [hashContains_eq] at hc
    have hni : v ∉ (lookupA idx.map k).getD [] := of_decide_eq_false hc
    obtain ⟨h1, h2, h3⟩ := mapInsert_twice idx.map k v hni
    refine ⟨h1, h2, ?_, ?_⟩
    · rw [hashLenOf_eq, hashLenOf_eq]
      show ((lookupA (mapInsert (mapInsert idx.map k v).1 k v).1 k).getD []).length = _
      rw [h3]
      simp
    · show ((lookupA (mapInsert (mapInsert idx.map k v).1 k v).1 k).getD []).count v = 1
      rw [h3, Option.getD_some, List.count_append]
      rw [List.count_eq_zero.2 hni]
      simp
  · intro idx k v hs hc
    rw [rangeContains_eq] at hc
    have hni : v ∉ (lookupA idx.map k).getD [] := of_decide_eq_false hc
    obtain ⟨h1, h2, h3⟩ := mapInsertSorted_twice idx.map k v hs hni
    refine ⟨h1, h2, ?_, ?_⟩
    · rw [rangeLenOf_eq, rangeLenOf_eq]
      show ((lookupA (mapInsertSorted (mapInsertSorted idx.map k v).1 k v).1 k).getD []).length = _
      rw [h3]
      simp
    · show ((lookupA (mapInsertSorted (mapInsertSorted idx.map k v).1 k v).1 k).getD []).count v = 1
      rw [h3, Option.getD_some, List.count_append]
      rw [List.count_eq_zero.2 hni]
      simp

theorem multimap_insert_idempotent_witness :
    (((HashIndex.new (K := Int) (V := Int)).insert 1 2).2 = true
      ∧ (((HashIndex.new (K := Int) (V := Int)).insert 1 2).1.insert 1 2).2 = false
      ∧ (((HashIndex.new (K := Int) (V := Int)).insert 1 2).1.insert 1 2).1.len_of 1 =
          (HashIndex.new (K := Int) (V := Int)).len_of 1 + 1
      ∧ ((((HashIndex.new (K := Int) (V := Int)).insert 1 2).1.insert 1 2).1.get 1).count 2 = 1)
    ∧ (((RangeIndex.new (K := Int) (V := Int)).insert 1 2).2 = true
      ∧ (((RangeIndex.new (K := Int) (V := Int)).insert 1 2).1.insert 1 2).2 = false
      ∧ (((RangeIndex.new (K := Int) (V := Int)).insert 1 2).1.insert 1 2).1.len_of 1 =
          (RangeIndex.new (K := Int) (V := Int)).len_of 1 + 1
      ∧ ((((RangeIndex.new (K := Int) (V := Int)).insert 1 2).1.insert 1 2).1.get 1).count 2 = 1) :=
  ⟨multimap_insert_idempotent.1 HashIndex.new 1 2 (by decide),
   multimap_insert_idempotent.2 RangeIndex.new 1 2 (by decide) (by decide)⟩

/-- Claim C7: for both `HashIndex` and `RangeIndex`, `remove(key, value)` returns
`true` iff the pair was present; removing the last value under a key deletes
the key entry (`contains_key` becomes `false`); and the no-empty-value-set
invariant is preserved by `remove` and by `insert`. -/
theorem multimap_remove_empty_key_cleanup {K V : Type} [LinearOrder K] [DecidableEq V] :
    (∀ (idx : HashIndex K V) (k : K) (v : V),
      (idx.remove k v).2 = idx.contains k v
      ∧ ((idx.map.map Prod.fst).Nodup → idx.len_of k = 1 → idx.contains k v = true →
          (idx.remove k v).1.contains_key k = false)
      ∧ ((∀ kv ∈ idx.map, kv.2 ≠ []) → ∀ kv ∈ (idx.remove k v).1.map, kv.2 ≠ [])
      ∧ ((∀ kv ∈ idx.map, kv.2 ≠ []) → ∀ kv ∈ (idx.insert k v).1.map, kv.2 ≠ []))
    ∧ (∀ (idx : RangeIndex K V) (k : K) (v : V),
      (idx.remove k v).2 = idx.contains k v
      ∧ ((idx.map.map Prod.fst).Nodup → idx.len_of k = 1 → idx.contains k v = true →
          (idx.remove k v).1.contains_key k = false)
      ∧ ((∀ kv ∈ idx.map, kv.2 ≠ []) → ∀ kv ∈ (idx.remove k v).1.map, kv.2 ≠ [])
      ∧ ((∀ kv ∈ idx.map, kv.2 ≠ []) → ∀ kv ∈ (idx.insert k v).1.map, kv.2 ≠ [])) := by
  constructor
  · intro idx k v
    refine ⟨?_, ?_, ?_, ?_⟩
    · rw [hashContains_eq]
      exact mapRemovePair_ret idx.map k v
    · intro hnd hlen hc
      rw [hashLenOf_eq] at hlen
      rw [hashContains_eq] at hc
      have hin : v ∈ (lookupA idx.map k).getD [] := of_decide_eq_true hc
      have hsingle : lookupA idx.map k = some [v] := by
        cases hl : lookupA idx.map k with
        | none => rw [hl] at hin; simp at hin
        | some s =>
          rw [hl] at hlen hin
          simp only [Option.getD_some] at hlen hin
          obtain ⟨a, ha⟩ := List.length_eq_one.1 hlen
          rw [ha] at hin
          rw [ha, List.mem_singleton.1 hin]
      show (lookupA (mapRemovePair idx.map k v).1 k).isSome = false
      rw [mapRemovePair_last idx.map k v hnd hsingle]
      rfl
    · exact mapRemovePair_noEmpty idx.map k v
    · exact mapInsert_noEmpty idx.map k v
  · intro idx k v
    refine ⟨?_, ?_, ?_, ?_⟩
    · rw [rangeContains_eq]
      exact mapRemovePair_ret idx.map k v
    · intro hnd hlen hc
      rw [rangeLenOf_eq] at hlen
      rw [rangeContains_eq] at hc
      have hin : v ∈ (lookupA idx.map k).getD [] := of_decide_eq_true hc
      have hsingle : lookupA idx.map k = some [v] := by
        cases hl : lookupA idx.map k with
        | none => rw [hl] at hin; simp at hin
        | some s =>
          rw [hl] at hlen hin
          simp only [Option.getD_some] at hlen hin
          obtain ⟨a, ha⟩ := List.length_eq_one.1 hlen
          rw [ha] at hin
          rw [ha, List.mem_singleton.1 hin]
      show (lookupA (mapRemovePair idx.map k v).1 k).isSome = false
      rw [mapRemovePair_last idx.map k v hnd hsingle]
      rfl
    · exact mapRemovePair_noEmpty idx.map k v
    · exact mapInsertSorted_noEmpty idx.map k v

theorem multimap_remove_empty_key_cleanup_witness :
    ((((HashIndex.new (K := Int) (V := Int)).insert 1 2).1.remove 1 2).2 =
        ((HashIndex.new (K := Int) (V := Int)).insert 1 2).1.contains 1 2
      ∧ (((HashIndex.new (K := Int) (V := Int)).insert 1 2).1.remove 1 2).1.contains_key 1 = false
      ∧ (∀ kv ∈ (((HashIndex.new (K := Int) (V := Int)).insert 1 2).1.remove 1 2).1.map, kv.2 ≠ []))
    ∧ ((((RangeIndex.new (K := Int) (V := Int)).insert 1 2).1.remove 1 2).2 =
        ((RangeIndex.new (K := Int) (V := Int)).insert 1 2).1.contains 1 2
      ∧ (((RangeIndex.new (K := Int) (V := Int)).insert 1 2).1.remove 1 2).1.contains_key 1 = false
      ∧ (∀ kv ∈ (((RangeIndex.new (K := Int) (V := Int)).insert 1 2).1.insert 3 4).1.map, kv.2 ≠ [])) :=
  ⟨⟨(multimap_remove_empty_key_cleanup.1 ((HashIndex.new (K := Int) (V := Int)).insert 1 2).1 1 2).1,
    (multimap_remove_empty_key_cleanup.1 ((HashIndex.new (K := Int) (V := Int)).insert 1 2).1 1 2).2.1
      (by decide) (by decide) (by decide),
    (multimap_remove_empty_key_cleanup.1 ((HashIndex.new (K := Int) (V := Int)).insert 1 2).1 1 2).2.2.1
      (by decide)⟩,
   ⟨(multimap_remove_empty_key_cleanup.2 ((RangeIndex.new (K := Int) (V := Int)).insert 1 2).1 1 2).1,
    (multimap_remove_empty_key_cleanup.2 ((RangeIndex.new (K := Int) (V := Int)).insert 1 2).1 1 2).2.1
      (by decide) (by decide) (by decide),
    (multimap_remove_empty_key_cleanup.2 ((RangeIndex.new (K := Int) (V := Int)).insert 1 2).1 3 4).2.2.2
      (by decide)⟩⟩

theorem lookupA_mem {K V : Type} [DecidableEq K] [DecidableEq V]
    (m : List (K × List V)) (k : K) (s : List V)
    (h : lookupA m k = some s) : (k, s) ∈ m := by
  induction m with
  | nil => simp [lookupA] at h
  | cons kv rest ih =>
    by_cases hk : kv.1 = k
    · rw [lookupA_cons, if_pos hk] at h
      have : kv = (k, s) := by
        obtain ⟨a, b⟩ := kv
        simp only at hk
        rw [hk]
        simpa using Option.some_injective _ h
      rw [← this]
      exact List.mem_cons_self kv rest
    · rw [lookupA_cons, if_neg hk] at h
      exact List.mem_cons_of_mem kv (ih h)

theorem retainRemove_spec {K0 : Type} (m : List (K0 × List VertexId)) (id : VertexId) :
    ∀ kv ∈ SimpleVertexQuery.retainRemove m id, id ∉ kv.2 ∧ kv.2 ≠ [] := by
  intro kv hkv
  unfold SimpleVertexQuery.retainRemove at hkv
  obtain ⟨hmem, hne⟩ := List.mem_filter.1 hkv
  obtain ⟨kv0, hkv0, heq⟩ := List.mem_map.1 hmem
  constructor
  · rw [← heq]
    intro hmem2
    have := (List.mem_filter.1 hmem2).2
    simp at this
  · intro hemp
    rw [hemp] at hne
    simp at hne

/-- Claim C4: `SimpleVertexQuery::remove_vertex(id)` purges `id` from the string
hash index, the integer hash index and the integer range index
unconditionally, and afterwards no key in any of the three indices maps to
an empty value set. -/
theorem facade_remove_vertex_purges_all_indices
    (q : SimpleVertexQuery) (id : VertexId) :
    (∀ s, id ∉ (q.remove_vertex id).query_string s)
    ∧ (∀ n, id ∉ (q.remove_vertex id).query_int n)
    ∧ (∀ kv ∈ (q.remove_vertex id).int_range_index, id ∉ kv.2)
    ∧ (∀ kv ∈ (q.remove_vertex id).string_index, kv.2 ≠ [])
    ∧ (∀ kv ∈ (q.remove_vertex id).int_index, kv.2 ≠ [])
    ∧ (∀ kv ∈ (q.remove_vertex id).int_range_index, kv.2 ≠ []) := by
  refine ⟨?_, ?_, ?_, ?_, ?_, ?_⟩
  · intro s hmem
    unfold SimpleVertexQuery.query_string at hmem
    rcases hl : lookupA (q.remove_vertex id).string_index s with _ | set0
    · rw [hl] at hmem; simp at hmem
    · rw [hl] at hmem
      exact (retainRemove_spec q.string_index id (s, set0) (lookupA_mem _ _ _ hl)).1 hmem
  · intro n hmem
    unfold SimpleVertexQuery.query_int at hmem
    rcases hl : lookupA (q.remove_vertex id).int_index n with _ | set0
    · rw [hl] at hmem; simp at hmem
    · rw [hl] at hmem
      exact (retainRemove_spec q.int_index id (n, set0) (lookupA_mem _ _ _ hl)).1 hmem
  · intro kv hkv
    exact (retainRemove_spec q.int_range_index id kv hkv).1
  · intro kv hkv
    exact (retainRemove_spec q.string_index id kv hkv).2
  · intro kv hkv
    exact (retainRemove_spec q.int_index id kv hkv).2
  · intro kv hkv
    exact (retainRemove_spec q.int_range_index id kv hkv).2

/-- Claim C5: both `Graph::clear` and `SupportsClear::clear` empty the vertex and
edge containers but leave the query facade's three indices untouched, so a
vertex id indexed before `clear` is still returned by `query_string` /
`query_int` afterwards. -/
theorem graph_clear_preserves_query_facade {V E : Type} (g : SlotMapGraph V E) :
    (g.clear).vertex_query = g.vertex_query
    ∧ (g.clearSupports).vertex_query = g.vertex_query
    ∧ (g.clear).vertex_count = 0
    ∧ (g.clear).edge_count = 0
    ∧ (∀ s id, id ∈ g.vertex_query.query_string s →
        id ∈ (g.clear).vertex_query.query_string s)
    ∧ (∀ n id, id ∈ g.vertex_query.query_int n →
        id ∈ (g.clear).vertex_query.query_int n) :=
  ⟨rfl, rfl, rfl, rfl, fun _ _ h => h, fun _ _ h => h⟩

/-- Claim C9: the tagged-value dispatchers: `query_value` routes strings to the
string index, routes every signed and unsigned integer width to the integer
hash index after normalizing into the signed 64-bit key space (`u64` by the
wrapping `as i64` cast, the narrower widths exactly), and yields the empty
sequence for every other variant (bools and floats included); `range_value`
delegates same-width integer pairs to the integer range index under the same
normalization and yields the empty sequence for every other combination
(strings, bools, floats, mixed widths). -/
theorem query_value_dispatch (q : SimpleVertexQuery) :
    (∀ s, q.query_value (Value.Str s) = q.query_string s)
    ∧ (∀ v, q.query_value (Value.I8 v) = q.query_int v)
    ∧ (∀ v, q.query_value (Value.I16 v) = q.query_int v)
    ∧ (∀ v, q.query_value (Value.I32 v) = q.query_int v)
    ∧ (∀ v, q.query_value (Value.I64 v) = q.query_int v)
    ∧ (∀ v, q.query_value (Value.U8 v) = q.query_int (v : Int))
    ∧ (∀ v, q.query_value (Value.U16 v) = q.query_int (v : Int))
    ∧ (∀ v, q.query_value (Value.U32 v) = q.query_int (v : Int))
    ∧ (∀ v, q.query_value (Value.U64 v) = q.query_int (u64AsI64 v))
    ∧ (∀ b, q.query_value (Value.BoolV b) = [])
    ∧ q.query_value Value.F32 = []
    ∧ q.query_value Value.F64 = []
    ∧ (∀ a b, q.range_value (Value.I8 a, Value.I8 b) = q.range_int a b)
    ∧ (∀ a b, q.range_value (Value.I16 a, Value.I16 b) = q.range_int a b)
    ∧ (∀ a b, q.range_value (Value.I32 a, Value.I32 b) = q.range_int a b)
    ∧ (∀ a b, q.range_value (Value.I64 a, Value.I64 b) = q.range_int a b)
    ∧ (∀ a b, q.range_value (Value.U8 a, Value.U8 b) = q.range_int (a : Int) (b : Int))
    ∧ (∀ a b, q.range_value (Value.U16 a, Value.U16 b) = q.range_int (a : Int) (b : Int))
    ∧ (∀ a b, q.range_value (Value.U32 a, Value.U32 b) = q.range_int (a : Int) (b : Int))
    ∧ (∀ a b, q.range_value (Value.U64 a, Value.U64 b) =
        q.range_int (u64AsI64 a) (u64AsI64 b))
    ∧ (∀ a b, q.range_value (Value.Str a, Value.Str b) = [])
    ∧ (∀ a b, q.range_value (Value.BoolV a, Value.BoolV b) = [])
    ∧ q.range_value (Value.F32, Value.F32) = []
    ∧ q.range_value (Value.F64, Value.F64) = []
    ∧ (∀ a b, q.range_value (Value.I8 a, Value.I16 b) = []) :=
  ⟨fun _ => rfl, fun _ => rfl, fun _ => rfl, fun _ => rfl, fun _ => rfl,
   fun _ => rfl, fun _ => rfl, fun _ => rfl, fun _ => rfl, fun _ => rfl,
   rfl, rfl,
   fun _ _ => rfl, fun _ _ => rfl, fun _ _ => rfl, fun _ _ => rfl,
   fun _ _ => rfl, fun _ _ => rfl, fun _ _ => rfl, fun _ _ => rfl,
   fun _ _ => rfl, fun _ _ => rfl, rfl, rfl, fun _ _ => rfl⟩

namespace SlotMap

variable {α : Type}

theorem insert_free_nil (m : SlotMap α) (v : α) (hf : m.free = []) :
    m.insert v = (⟨m.slots ++ [⟨0, some v⟩], []⟩, Key.live m.slots.length 0) := by
  unfold insert
  rw [hf]

theorem insert_free_cons_some (m : SlotMap α) (v : α) {j : Nat} {rest : List Nat}
    {s : Slot α} (hf : m.free = j :: rest) (hj : m.slots[j]? = some s) :
    m.insert v = (⟨m.slots.set j ⟨s.gen, some v⟩, rest⟩, Key.live j s.gen) := by
  unfold insert
  rw [hf]
  simp only [hj]

theorem insert_free_cons_none (m : SlotMap α) (v : α) {j : Nat} {rest : List Nat}
    (hf : m.free = j :: rest) (hj : m.slots[j]? = none) :
    m.insert v = (⟨m.slots ++ [⟨0, some v⟩], rest⟩, Key.live m.slots.length 0) := by
  unfold insert
  rw [hf]
  simp only [hj]

theorem remove_live_hit (m : SlotMap α) {i g : Nat} {s : Slot α} {w : α}
    (hj : m.slots[i]? = some s) (hg : s.gen = g) (hv : s.val = some w) :
    m.remove (Key.live i g) = (⟨m.slots.set i ⟨s.gen + 1, none⟩, i :: m.free⟩, some w) := by
  unfold remove
  simp only [hj, if_pos hg, hv]

theorem remove_live_miss (m : SlotMap α) {i g : Nat}
    (h : m.slots[i]? = none ∨ (∃ s, m.slots[i]? = some s ∧ (s.gen ≠ g ∨ s.val = none))) :
    m.remove (Key.live i g) = (m, none) := by
  unfold remove
  rcases h with h1 | ⟨s, hs, h2⟩
  · simp only [h1]
  · rcases h2 with h2 | h2
    · simp only [hs, if_neg h2]
    · by_cases hg : s.gen = g
      · simp only [hs, if_pos hg, h2]
      · simp only [hs, if_neg hg]

theorem get_live (m : SlotMap α) {i g : Nat} {s : Slot α}
    (hj : m.slots[i]? = some s) :
    m.get (Key.live i g) = if s.gen = g then s.val else none := by
  unfold get
  simp only [hj]

theorem get_live_none (m : SlotMap α) {i g : Nat}
    (hj : m.slots[i]? = none) : m.get (Key.live i g) = none := by
  unfold get
  simp only [hj]

theorem setVal_live_hit (m : SlotMap α) (v : α) {i g : Nat} {s : Slot α}
    (hj : m.slots[i]? = some s) (hc : s.gen = g ∧ s.val.isSome) :
    m.setVal (Key.live i g) v = ⟨m.slots.set i ⟨s.gen, some v⟩, m.free⟩ := by
  unfold setVal
  simp only [hj, if_pos hc]

theorem setVal_live_miss (m : SlotMap α) (v : α) {i g : Nat}
    (h : m.slots[i]? = none ∨ (∃ s, m.slots[i]? = some s ∧ ¬(s.gen = g ∧ s.val.isSome))) :
    m.setVal (Key.live i g) v = m := by
  unfold setVal
  rcases h with h1 | ⟨s, hs, h2⟩
  · simp only [h1]
  · simp only [hs, if_neg h2]

end SlotMap

namespace SlotMap

variable {α : Type}

theorem insert_get (m : SlotMap α) (v : α) :
    ((m.insert v).1).get (m.insert v).2 = some v := by
  cases hf : m.free with
  | nil =>
    rw [insert_free_nil m v hf]
    dsimp only
    rw [get_live _ (List.getElem?_concat_length m.slots ⟨0, some v⟩)]
    simp
  | cons j rest =>
    cases hj : m.slots[j]? with
    | some s =>
      obtain ⟨hlt, _⟩ := List.getElem?_eq_some.1 hj
      rw [insert_free_cons_some m v hf hj]
      dsimp only
      rw [get_live _ (List.getElem?_set_eq_of_lt (⟨s.gen, some v⟩ : Slot α) hlt)]
      simp
    | none =>
      rw [insert_free_cons_none m v hf hj]
      dsimp only
      rw [get_live _ (List.getElem?_concat_length m.slots ⟨0, some v⟩)]
      simp

theorem remove_get_none (m : SlotMap α) (k : Key)
    (h : ((m.remove k).2).isSome) : ((m.remove k).1).get k = none := by
  cases k with
  | null => simp [remove] at h
  | live i g =>
    cases hj : m.slots[i]? with
    | some s =>
      by_cases hg : s.gen = g
      · cases hv : s.val with
        | some w =>
          obtain ⟨hlt, _⟩ := List.getElem?_eq_some.1 hj
          rw [remove_live_hit m hj hg hv]
          dsimp only
          rw [get_live _ (List.getElem?_set_eq_of_lt (⟨s.gen + 1, none⟩ : Slot α) hlt)]
          have hne : (⟨s.gen + 1, none⟩ : Slot α).gen ≠ g := by dsimp only; omega
          simp [hne]
        | none =>
          rw [remove_live_miss m (Or.inr ⟨s, hj, Or.inr hv⟩)] at h
          simp at h
      · rw [remove_live_miss m (Or.inr ⟨s, hj, Or.inl hg⟩)] at h
        simp at h
    | none =>
      rw [remove_live_miss m (Or.inl hj)] at h
      simp at h

theorem remove_genGE (m : SlotMap α) (i g : Nat)
    (h : ((m.remove (Key.live i g)).2).isSome) :
    ((m.remove (Key.live i g)).1).genGE i (g + 1) := by
  cases hj : m.slots[i]? with
  | some s =>
    by_cases hg : s.gen = g
    · cases hv : s.val with
      | some w =>
        obtain ⟨hlt, _⟩ := List.getElem?_eq_some.1 hj
        rw [remove_live_hit m hj hg hv]
        exact ⟨⟨s.gen + 1, none⟩, List.getElem?_set_eq_of_lt _ hlt,
          by dsimp only; omega⟩
      | none =>
        rw [remove_live_miss m (Or.inr ⟨s, hj, Or.inr hv⟩)] at h
        simp at h
    · rw [remove_live_miss m (Or.inr ⟨s, hj, Or.inl hg⟩)] at h
      simp at h
  | none =>
    rw [remove_live_miss m (Or.inl hj)] at h
    simp at h

theorem genGE_insert (m : SlotMap α) (i g : Nat) (v : α)
    (h : m.genGE i g) : ((m.insert v).1).genGE i g := by
  obtain ⟨s, hs, hg⟩ := h
  obtain ⟨hlt, _⟩ := List.getElem?_eq_some.1 hs
  cases hf : m.free with
  | nil =>
    rw [insert_free_nil m v hf]
    exact ⟨s, by dsimp only; rw [List.getElem?_append_left hlt]; exact hs, hg⟩
  | cons j rest =>
    cases hj : m.slots[j]? with
    | some sj =>
      rw [insert_free_cons_some m v hf hj]
      by_cases hij : j = i
      · subst hij
        have hss : s = sj := by rw [hs] at hj; exact Option.some_injective _ hj
        subst hss
        exact ⟨⟨s.gen, some v⟩, List.getElem?_set_eq_of_lt _ hlt, hg⟩
      · exact ⟨s, by dsimp only; rw [List.getElem?_set_ne hij]; exact hs, hg⟩
    | none =>
      rw [insert_free_cons_none m v hf hj]
      exact ⟨s, by dsimp only; rw [List.getElem?_append_left hlt]; exact hs, hg⟩

theorem genGE_remove (m : SlotMap α) (i g : Nat) (k : Key)
    (h : m.genGE i g) : ((m.remove k).1).genGE i g := by
  obtain ⟨s, hs, hg⟩ := h
  cases k with
  | null => exact ⟨s, hs, hg⟩
  | live j gj =>
    cases hj : m.slots[j]? with
    | some sj =>
      by_cases hgj : sj.gen = gj
      · cases hv : sj.val with
        | some w =>
          rw [remove_live_hit m hj hgj hv]
          by_cases hij : j = i
          · subst hij
            have hss : s = sj := by rw [hs] at hj; exact Option.some_injective _ hj
            subst hss
            obtain ⟨hlt, _⟩ := List.getElem?_eq_some.1 hs
            exact ⟨⟨s.gen + 1, none⟩, List.getElem?_set_eq_of_lt _ hlt,
              by dsimp only; omega⟩
          · exact ⟨s, by dsimp only; rw [List.getElem?_set_ne hij]; exact hs, hg⟩
        | none =>
          rw [remove_live_miss m (Or.inr ⟨sj, hj, Or.inr hv⟩)]
          exact ⟨s, hs, hg⟩
      · rw [remove_live_miss m (Or.inr ⟨sj, hj, Or.inl hgj⟩)]
        exact ⟨s, hs, hg⟩
    | none =>
      rw [remove_live_miss m (Or.inl hj)]
      exact ⟨s, hs, hg⟩

theorem genGE_setVal (m : SlotMap α) (i g : Nat) (k : Key) (v : α)
    (h : m.genGE i g) : (m.setVal k v).genGE i g := by
  obtain ⟨s, hs, hg⟩ := h
  cases k with
  | null => exact ⟨s, hs, hg⟩
  | live j gj =>
    cases hj : m.slots[j]? with
    | some sj =>
      by_cases hc : sj.gen = gj ∧ sj.val.isSome
      · rw [setVal_live_hit m v hj hc]
        by_cases hij : j = i
        · subst hij
          have hss : s = sj := by rw [hs] at hj; exact Option.some_injective _ hj
          subst hss
          obtain ⟨hlt, _⟩ := List.getElem?_eq_some.1 hs
          exact ⟨⟨s.gen, some v⟩, List.getElem?_set_eq_of_lt _ hlt, hg⟩
        · exact ⟨s, by dsimp only; rw [List.getElem?_set_ne hij]; exact hs, hg⟩
      · rw [setVal_live_miss m v (Or.inr ⟨sj, hj, hc⟩)]
        exact ⟨s, hs, hg⟩
    | none =>
      rw [setVal_live_miss m v (Or.inl hj)]
      exact ⟨s, hs, hg⟩

theorem get_none_of_genGE_succ (m : SlotMap α) (i g : Nat)
    (h : m.genGE i (g + 1)) : m.get (Key.live i g) = none := by
  obtain ⟨s, hs, hg⟩ := h
  rw [get_live m hs]
  have hne : s.gen ≠ g := by omega
  simp [hne]

theorem setVal_get (m : SlotMap α) (k : Key) (v : α)
    (h : (m.get k).isSome) : (m.setVal k v).get k = some v := by
  cases k with
  | null => simp [get] at h
  | live i g =>
    cases hj : m.slots[i]? with
    | some s =>
      by_cases hg : s.gen = g
      · have hv : s.val.isSome := by
          rw [get_live m hj, if_pos hg] at h
          exact h
        obtain ⟨hlt, _⟩ := List.getElem?_eq_some.1 hj
        rw [setVal_live_hit m v hj ⟨hg, hv⟩]
        rw [get_live _ (List.getElem?_set_eq_of_lt (⟨s.gen, some v⟩ : Slot α) hlt)]
        rw [if_pos hg]
      · rw [get_live m hj, if_neg hg] at h
        simp at h
    | none =>
      rw [get_live_none m hj] at h
      simp at h

end SlotMap

namespace SlotMap

variable {α : Type}

theorem remove_null (m : SlotMap α) : m.remove Key.null = (m, none) := rfl

theorem setVal_null (m : SlotMap α) (v : α) : m.setVal Key.null v = m := rfl

theorem get_null (m : SlotMap α) : m.get Key.null = none := rfl

theorem slotVacant_congr {m1 m2 : SlotMap α} {i : Nat}
    (h : m1.slots[i]? = m2.slots[i]?) : m1.slotVacant i = m2.slotVacant i := by
  unfold slotVacant
  rw [h]

theorem not_vacant_of_occupied (m : SlotMap α) {i : Nat} {s : Slot α}
    (hj : m.slots[i]? = some s) (hv : s.val.isSome) :
    m.slotVacant i = false := by
  unfold slotVacant
  rw [hj]
  show s.val.isNone = false
  cases hval : s.val with
  | some w => rfl
  | none => rw [hval] at hv; simp at hv

theorem WF_insert (m : SlotMap α) (v : α) (h : m.WF) : ((m.insert v).1).WF := by
  obtain ⟨hall, hnd⟩ := h
  rw [List.all_eq_true] at hall
  cases hf : m.free with
  | nil =>
    rw [insert_free_nil m v hf]
    exact ⟨rfl, List.nodup_nil⟩
  | cons j rest =>
    rw [hf] at hall hnd
    rw [List.nodup_cons] at hnd
    cases hj : m.slots[j]? with
    | some s =>
      rw [insert_free_cons_some m v hf hj]
      constructor
      · rw [List.all_eq_true]
        intro i hi
        have hnej : j ≠ i := fun he => hnd.1 (he ▸ hi)
        have hsame : ((⟨m.slots.set j ⟨s.gen, some v⟩, rest⟩ : SlotMap α)).slots[i]? =
            m.slots[i]? := List.getElem?_set_ne hnej
        rw [slotVacant_congr hsame]
        exact hall i (List.mem_cons_of_mem j hi)
      · exact hnd.2
    | none =>
      exfalso
      have := hall j (List.mem_cons_self j rest)
      unfold slotVacant at this
      rw [hj] at this
      simp at this
  
theorem WF_remove (m : SlotMap α) (k : Key) (h : m.WF) : ((m.remove k).1).WF := by
  cases k with
  | null => rw [remove_null]; exact h
  | live i g =>
    obtain ⟨hall, hnd⟩ := h
    rw [List.all_eq_true] at hall
    cases hj : m.slots[i]? with
    | some s =>
      by_cases hg : s.gen = g
      · cases hv : s.val with
        | some w =>
          obtain ⟨hlt, _⟩ := List.getElem?_eq_some.1 hj
          rw [remove_live_hit m hj hg hv]
          have hocc : i ∉ m.free := by
            intro hmem
            have hvac := hall i hmem
            rw [not_vacant_of_occupied m hj (by rw [hv]; rfl)] at hvac
            simp at hvac
          constructor
          · rw [List.all_eq_true]
            intro x hx
            rcases List.mem_cons.1 hx with h1 | h2
            · subst h1
              unfold slotVacant
              dsimp only
              rw [List.getElem?_set_eq_of_lt _ hlt]
              rfl
            · have hnex : i ≠ x := fun he => hocc (he ▸ h2)
              have hsame :
                  ((⟨m.slots.set i ⟨s.gen + 1, none⟩, i :: m.free⟩ : SlotMap α)).slots[x]? =
                  m.slots[x]? := List.getElem?_set_ne hnex
              rw [slotVacant_congr hsame]
              exact hall x h2
          · exact List.nodup_cons.2 ⟨hocc, hnd⟩
        | none =>
          rw [remove_live_miss m (Or.inr ⟨s, hj, Or.inr hv⟩)]
          exact ⟨List.all_eq_true.2 hall, hnd⟩
      · rw [remove_live_miss m (Or.inr ⟨s, hj, Or.inl hg⟩)]
        exact ⟨List.all_eq_true.2 hall, hnd⟩
    | none =>
      rw [remove_live_miss m (Or.inl hj)]
      exact ⟨List.all_eq_true.2 hall, hnd⟩

theorem WF_setVal (m : SlotMap α) (k : Key) (v : α) (h : m.WF) : (m.setVal k v).WF := by
  cases k with
  | null => rw [setVal_null]; exact h
  | live j gj =>
    obtain ⟨hall, hnd⟩ := h
    rw [List.all_eq_true] at hall
    cases hj : m.slots[j]? with
    | some sj =>
      by_cases hc : sj.gen = gj ∧ sj.val.isSome
      · rw [setVal_live_hit m v hj hc]
        have hocc : j ∉ m.free := by
          intro hmem
          have hvac := hall j hmem
          rw [not_vacant_of_occupied m hj hc.2] at hvac
          simp at hvac
        constructor
        · rw [List.all_eq_true]
          intro x hx
          have hnex : j ≠ x := fun he => hocc (he ▸ hx)
          have hsame :
              ((⟨m.slots.set j ⟨sj.gen, some v⟩, m.free⟩ : SlotMap α)).slots[x]? =
              m.slots[x]? := List.getElem?_set_ne hnex
          rw [slotVacant_congr hsame]
          exact hall x hx
        · exact hnd
      · rw [setVal_live_miss m v (Or.inr ⟨sj, hj, hc⟩)]
        exact ⟨List.all_eq_true.2 hall, hnd⟩
    | none =>
      rw [setVal_live_miss m v (Or.inl hj)]
      exact ⟨List.all_eq_true.2 hall, hnd⟩

end SlotMap

namespace SlotMap

variable {α : Type}

/-- A live handle stays resolvable across an unrelated `insert` (the free
slot taken by the insertion is vacant, hence not the handle's slot). -/
theorem get_isSome_insert (m : SlotMap α) (v : α) (k : Key)
    (hwf : m.WF) (h : (m.get k).isSome) : (((m.insert v).1).get k).isSome := by
  cases k with
  | null => rw [get_null] at h; simp at h
  | live i g =>
    cases hj : m.slots[i]? with
    | some s =>
      by_cases hg : s.gen = g
      · have hv : s.val.isSome := by
          rw [get_live m hj, if_pos hg] at h
          exact h
        obtain ⟨hlt, _⟩ := List.getElem?_eq_some.1 hj
        obtain ⟨hall, hnd⟩ := hwf
        rw [List.all_eq_true] at hall
        cases hf : m.free with
        | nil =>
          rw [insert_free_nil m v hf]
          have hsame : ((⟨m.slots ++ [⟨0, some v⟩], []⟩ : SlotMap α)).slots[i]? =
              m.slots[i]? := List.getElem?_append_left hlt
          rw [get_live _ (hsame.trans hj), if_pos hg]
          exact hv
        | cons j rest =>
          cases hjs : m.slots[j]? with
          | some sj =>
            rw [insert_free_cons_some m v hf hjs]
            have hnej : j ≠ i := by
              intro he
              subst he
              rw [hj] at hjs
              obtain rfl : s = sj := Option.some_injective _ hjs
              have hvac := hall j (by rw [hf]; exact List.mem_cons_self j rest)
              rw [not_vacant_of_occupied m hj hv] at hvac
              simp at hvac
            have hsame : ((⟨m.slots.set j ⟨sj.gen, some v⟩, rest⟩ : SlotMap α)).slots[i]? =
                m.slots[i]? := List.getElem?_set_ne hnej
            rw [get_live _ (hsame.trans hj), if_pos hg]
            exact hv
          | none =>
            exfalso
            have hvac := hall j (by rw [hf]; exact List.mem_cons_self j rest)
            unfold slotVacant at hvac
            rw [hjs] at hvac
            simp at hvac
      · rw [get_live m hj, if_neg hg] at h
        simp at h
    | none =>
      rw [get_live_none m hj] at h
      simp at h

/-- A live handle stays resolvable across removal of a different handle. -/
theorem get_isSome_remove (m : SlotMap α) (kd k : Key)
    (hne : kd ≠ k) (h : (m.get k).isSome) : (((m.remove kd).1).get k).isSome := by
  cases kd with
  | null => rw [remove_null]; exact h
  | live j gj =>
    cases hjs : m.slots[j]? with
    | some sj =>
      by_cases hgj : sj.gen = gj
      · cases hv : sj.val with
        | some w =>
          rw [remove_live_hit m hjs hgj hv]
          cases k with
          | null => rw [get_null] at h; simp at h
          | live i g =>
            cases hj : m.slots[i]? with
            | some s =>
              by_cases hg : s.gen = g
              · have hvs : s.val.isSome := by
                  rw [get_live m hj, if_pos hg] at h
                  exact h
                have hnej : j ≠ i := by
                  intro he
                  subst he
                  rw [hj] at hjs
                  obtain rfl : s = sj := Option.some_injective _ hjs
                  exact hne (by rw [← hgj, hg])
                have hsame :
                    ((⟨m.slots.set j ⟨sj.gen + 1, none⟩, j :: m.free⟩ : SlotMap α)).slots[i]? =
                    m.slots[i]? := List.getElem?_set_ne hnej
                rw [get_live _ (hsame.trans hj), if_pos hg]
                exact hvs
              · rw [get_live m hj, if_neg hg] at h
                simp at h
            | none =>
              rw [get_live_none m hj] at h
              simp at h
        | none =>
          rw [remove_live_miss m (Or.inr ⟨sj, hjs, Or.inr hv⟩)]
          exact h
      · rw [remove_live_miss m (Or.inr ⟨sj, hjs, Or.inl hgj⟩)]
        exact h
    | none =>
      rw [remove_live_miss m (Or.inl hjs)]
      exact h

/-- A live handle stays resolvable (possibly with a new payload) across
`setVal` on any handle. -/
theorem get_isSome_setVal (m : SlotMap α) (kd : Key) (v : α) (k : Key)
    (h : (m.get k).isSome) : ((m.setVal kd v).get k).isSome := by
  cases kd with
  | null => rw [setVal_null]; exact h
  | live j gj =>
    cases hjs : m.slots[j]? with
    | some sj =>
      by_cases hc : sj.gen = gj ∧ sj.val.isSome
      · rw [setVal_live_hit m v hjs hc]
        cases k with
        | null => rw [get_null] at h; simp at h
        | live i g =>
          cases hj : m.slots[i]? with
          | some s =>
            by_cases hg : s.gen = g
            · by_cases hij : j = i
              · subst hij
                rw [hj] at hjs
                obtain rfl : s = sj := Option.some_injective _ hjs
                obtain ⟨hlt, _⟩ := List.getElem?_eq_some.1 hj
                have hset :
                    ((⟨m.slots.set j ⟨s.gen, some v⟩, m.free⟩ : SlotMap α)).slots[j]? =
                    some ⟨s.gen, some v⟩ := List.getElem?_set_eq_of_lt _ hlt
                rw [get_live _ hset, if_pos hg]
                rfl
              · have hsame :
                    ((⟨m.slots.set j ⟨sj.gen, some v⟩, m.free⟩ : SlotMap α)).slots[i]? =
                    m.slots[i]? := List.getElem?_set_ne hij
                have hvs : s.val.isSome := by
                  rw [get_live m hj, if_pos hg] at h
                  exact h
                rw [get_live _ (hsame.trans hj), if_pos hg]
                exact hvs
            · rw [get_live m hj, if_neg hg] at h
              simp at h
          | none =>
            rw [get_live_none m hj] at h
            simp at h
      · rw [setVal_live_miss m v (Or.inr ⟨sj, hjs, hc⟩)]
        exact h
    | none =>
      rw [setVal_live_miss m v (Or.inl hjs)]
      exact h

end SlotMap

theorem VertexContainer.applyOps_cons {V : Type} (c : VertexContainer V)
    (op : VOp V) (ops : List (VOp V)) :
    c.applyOps (op :: ops) = (c.applyOp op).applyOps ops := rfl

theorem VertexContainer.genGE_applyOps {V : Type} (i g : Nat)
    (ops : List (VOp V)) :
    ∀ (c : VertexContainer V), c.data.genGE i g → ((c.applyOps ops).data).genGE i g := by
  induction ops with
  | nil => intro c h; exact h
  | cons op rest ih =>
    intro c h
    rw [VertexContainer.applyOps_cons]
    apply ih
    cases op with
    | ins v => exact SlotMap.genGE_insert c.data i g v h
    | del kd => exact SlotMap.genGE_remove c.data i g kd.key h
    | set kd v => exact SlotMap.genGE_setVal c.data i g kd.key v h

theorem VertexContainer.WF_applyOp {V : Type} (c : VertexContainer V) (op : VOp V)
    (h : c.data.WF) : ((c.applyOp op).data).WF := by
  cases op with
  | ins v => exact SlotMap.WF_insert c.data v h
  | del kd => exact SlotMap.WF_remove c.data kd.key h
  | set kd v => exact SlotMap.WF_setVal c.data kd.key v h

theorem VertexId.key_ne_of_ne {a b : VertexId} (h : a ≠ b) : a.key ≠ b.key := by
  intro hk
  apply h
  cases a
  cases b
  cases hk
  rfl

theorem VertexContainer.live_after_ops {V : Type} (id : VertexId) (ops : List (VOp V)) :
    ∀ (c : VertexContainer V), c.data.WF → ((c.get id).isSome) →
      (∀ op ∈ ops, op ≠ VOp.del id) → ((c.applyOps ops).get id).isSome := by
  induction ops with
  | nil => intro c _ h _; exact h
  | cons op rest ih =>
    intro c hwf h hop
    rw [VertexContainer.applyOps_cons]
    apply ih (c.applyOp op) (VertexContainer.WF_applyOp c op hwf) ?_
      (fun x hx => hop x (List.mem_cons_of_mem op hx))
    cases op with
    | ins v => exact SlotMap.get_isSome_insert c.data v id.key hwf h
    | del kd =>
      have hne : kd ≠ id := by
        intro he
        exact hop (VOp.del kd) (List.mem_cons_self _ rest) (by rw [he])
      exact SlotMap.get_isSome_remove c.data kd.key id.key (VertexId.key_ne_of_ne hne) h
    | set kd v => exact SlotMap.get_isSome_setVal c.data kd.key v id.key h

/-- Claim C2: generational identity of vertex handles: a handle returned by
`VertexContainer::insert` resolves to the stored payload; `get_mut` mutates
it in place; it keeps resolving across any sequence of operations that does
not remove it (given the free-list well-formedness invariant); and once
`remove(h)` succeeds, `get(h)` is `None` forever, across any subsequent
operation sequence — even inserts that reuse the same slot index. -/
theorem vertex_generational_safety {V : Type} :
    (∀ (c : VertexContainer V) (v : V), ((c.insert v).1).get (c.insert v).2 = some v)
    ∧ (∀ (c : VertexContainer V) (id : VertexId) (v : V),
        ((c.get id).isSome) → (c.get_mut_set id v).get id = some v)
    ∧ (∀ (c : VertexContainer V) (id : VertexId), c.data.WF → ((c.get id).isSome) →
        ∀ ops : List (VOp V), (∀ op ∈ ops, op ≠ VOp.del id) →
          ((c.applyOps ops).get id).isSome)
    ∧ (∀ (c : VertexContainer V) (id : VertexId), (((c.remove id).2).isSome) →
        ∀ ops : List (VOp V), ((((c.remove id).1).applyOps ops).get id) = none) := by
  refine ⟨?_, ?_, ?_, ?_⟩
  · intro c v
    exact SlotMap.insert_get c.data v
  · intro c id v h
    exact SlotMap.setVal_get c.data id.key v h
  · intro c id hwf h ops hop
    exact VertexContainer.live_after_ops id ops c hwf h hop
  · intro c id h ops
    have h2 : ((c.data.remove id.key).2).isSome := h
    cases hkey : id.key with
    | null =>
      rw [hkey, SlotMap.remove_null] at h2
      simp at h2
    | live i g =>
      rw [hkey] at h2
      show ((((c.remove id).1).applyOps ops).data).get id.key = none
      rw [hkey]
      apply SlotMap.get_none_of_genGE_succ
      apply VertexContainer.genGE_applyOps i (g + 1) ops
      show ((c.data.remove id.key).1).genGE i (g + 1)
      rw [hkey]
      exact SlotMap.remove_genGE c.data i g h2

/-- Closed instantiation of `vertex_generational_safety` on a concrete
container: one vertex inserted, mutated, kept live across unrelated
operations, then removed and stale forever across slot reuse. -/
theorem vertex_generational_safety_witness :
    ((((VertexContainer.new (V := Nat)).insert 5).1.get_mut_set
        ((VertexContainer.new (V := Nat)).insert 5).2 9).get
        ((VertexContainer.new (V := Nat)).insert 5).2 = some 9)
    ∧ (((((VertexContainer.new (V := Nat)).insert 5).1.applyOps
        [VOp.ins 7, VOp.ins 8]).get ((VertexContainer.new (V := Nat)).insert 5).2).isSome)
    ∧ (((((VertexContainer.new (V := Nat)).insert 5).1.remove
        ((VertexContainer.new (V := Nat)).insert 5).2).1.applyOps
        [VOp.ins 7]).get ((VertexContainer.new (V := Nat)).insert 5).2 = none) :=
  ⟨vertex_generational_safety.2.1 ((VertexContainer.new (V := Nat)).insert 5).1
      ((VertexContainer.new (V := Nat)).insert 5).2 9 (by decide),
   vertex_generational_safety.2.2.1 ((VertexContainer.new (V := Nat)).insert 5).1
      ((VertexContainer.new (V := Nat)).insert 5).2 (by decide) (by decide)
      [VOp.ins 7, VOp.ins 8] (by decide),
   vertex_generational_safety.2.2.2 ((VertexContainer.new (V := Nat)).insert 5).1
      ((VertexContainer.new (V := Nat)).insert 5).2 (by decide) [VOp.ins 7]⟩

section Sync

variable {α β : Type}

theorem shapeSync_pointwise {m1 : SlotMap α} {m2 : SlotMap β}
    (h : ShapeSync m1 m2) (i : Nat) :
    m1.slots[i]?.map Slot.shape = m2.slots[i]?.map Slot.shape := by
  calc m1.slots[i]?.map Slot.shape = (m1.slots.map Slot.shape)[i]? :=
        (List.getElem?_map Slot.shape m1.slots i).symm
    _ = (m2.slots.map Slot.shape)[i]? := by rw [h.1]
    _ = m2.slots[i]?.map Slot.shape := List.getElem?_map Slot.shape m2.slots i

theorem shapeSync_length {m1 : SlotMap α} {m2 : SlotMap β}
    (h : ShapeSync m1 m2) : m1.slots.length = m2.slots.length := by
  have := congrArg List.length h.1
  simpa using this

theorem sync_insert (m1 : SlotMap α) (m2 : SlotMap β) (a : α) (b : β)
    (h : ShapeSync m1 m2) :
    ShapeSync (m1.insert a).1 (m2.insert b).1 ∧ (m1.insert a).2 = (m2.insert b).2 := by
  have hfree : m2.free = m1.free := h.2.symm
  cases hf : m1.free with
  | nil =>
    rw [SlotMap.insert_free_nil m1 a hf, SlotMap.insert_free_nil m2 b (hfree.trans hf)]
    refine ⟨⟨?_, rfl⟩, ?_⟩
    · dsimp only
      rw [List.map_append, List.map_append, h.1]
      rfl
    · dsimp only
      rw [shapeSync_length h]
  | cons j rest =>
    have hp := shapeSync_pointwise h j
    cases hj1 : m1.slots[j]? with
    | some s1 =>
      rw [hj1] at hp
      cases hj2 : m2.slots[j]? with
      | some s2 =>
        rw [hj2] at hp
        simp only [Option.map_some', Option.some.injEq] at hp
        have hgen : s1.gen = s2.gen := congrArg Prod.fst hp
        rw [SlotMap.insert_free_cons_some m1 a hf hj1,
          SlotMap.insert_free_cons_some m2 b (hfree.trans hf) hj2]
        refine ⟨⟨?_, rfl⟩, ?_⟩
        · dsimp only
          rw [List.map_set, List.map_set, h.1]
          show (List.map Slot.shape m2.slots).set j (s1.gen, true) = _
          rw [hgen]
          rfl
        · dsimp only
          rw [hgen]
      | none =>
        rw [hj2] at hp
        simp at hp
    | none =>
      rw [hj1] at hp
      cases hj2 : m2.slots[j]? with
      | some s2 => rw [hj2] at hp; simp at hp
      | none =>
        rw [SlotMap.insert_free_cons_none m1 a hf hj1,
          SlotMap.insert_free_cons_none m2 b (hfree.trans hf) hj2]
        refine ⟨⟨?_, rfl⟩, ?_⟩
        · dsimp only
          rw [List.map_append, List.map_append, h.1]
          rfl
        · dsimp only
          rw [shapeSync_length h]

theorem sync_remove (m1 : SlotMap α) (m2 : SlotMap β) (k : Key)
    (h : ShapeSync m1 m2) : ShapeSync (m1.remove k).1 (m2.remove k).1 := by
  cases k with
  | null => rw [SlotMap.remove_null, SlotMap.remove_null]; exact h
  | live i g =>
    have hp := shapeSync_pointwise h i
    cases hj1 : m1.slots[i]? with
    | some s1 =>
      rw [hj1] at hp
      cases hj2 : m2.slots[i]? with
      | some s2 =>
        rw [hj2] at hp
        simp only [Option.map_some', Option.some.injEq] at hp
        have hgen : s1.gen = s2.gen := congrArg Prod.fst hp
        have hocc : s1.val.isSome = s2.val.isSome := congrArg Prod.snd hp
        by_cases hg : s1.gen = g
        · cases hv1 : s1.val with
          | some w1 =>
            cases hv2 : s2.val with
            | some w2 =>
              rw [SlotMap.remove_live_hit m1 hj1 hg hv1,
                SlotMap.remove_live_hit m2 hj2 (hgen ▸ hg) hv2]
              refine ⟨?_, ?_⟩
              · dsimp only
                rw [List.map_set, List.map_set, h.1]
                show (List.map Slot.shape m2.slots).set i (s1.gen + 1, false) = _
                rw [hgen]
                rfl
              · dsimp only
                rw [h.2]
            | none =>
              rw [hv1, hv2] at hocc
              simp at hocc
          | none =>
            cases hv2 : s2.val with
            | some w2 =>
              rw [hv1, hv2] at hocc
              simp at hocc
            | none =>
              rw [SlotMap.remove_live_miss m1 (Or.inr ⟨s1, hj1, Or.inr hv1⟩),
                SlotMap.remove_live_miss m2 (Or.inr ⟨s2, hj2, Or.inr hv2⟩)]
              exact h
        · rw [SlotMap.remove_live_miss m1 (Or.inr ⟨s1, hj1, Or.inl hg⟩),
            SlotMap.remove_live_miss m2 (Or.inr ⟨s2, hj2, Or.inl (hgen ▸ hg)⟩)]
          exact h
      | none =>
        rw [hj2] at hp
        simp at hp
    | none =>
      rw [hj1] at hp
      cases hj2 : m2.slots[i]? with
      | some s2 => rw [hj2] at hp; simp at hp
      | none =>
        rw [SlotMap.remove_live_miss m1 (Or.inl hj1),
          SlotMap.remove_live_miss m2 (Or.inl hj2)]
        exact h

theorem sync_get (m1 : SlotMap α) (m2 : SlotMap β) (k : Key)
    (h : ShapeSync m1 m2) : (m1.get k).isSome = (m2.get k).isSome := by
  cases k with
  | null => rfl
  | live i g =>
    have hp := shapeSync_pointwise h i
    cases hj1 : m1.slots[i]? with
    | some s1 =>
      rw [hj1] at hp
      cases hj2 : m2.slots[i]? with
      | some s2 =>
        rw [hj2] at hp
        simp only [Option.map_some', Option.some.injEq] at hp
        have hgen : s1.gen = s2.gen := congrArg Prod.fst hp
        have hocc : s1.val.isSome = s2.val.isSome := congrArg Prod.snd hp
        rw [SlotMap.get_live m1 hj1, SlotMap.get_live m2 hj2, ← hgen]
        by_cases hg : s1.gen = g
        · rw [if_pos hg, if_pos hg]
          exact hocc
        · rw [if_neg hg, if_neg hg]
          rfl
      | none =>
        rw [hj2] at hp
        simp at hp
    | none =>
      rw [hj1] at hp
      cases hj2 : m2.slots[i]? with
      | some s2 => rw [hj2] at hp; simp at hp
      | none =>
        rw [SlotMap.get_live_none m1 hj1, SlotMap.get_live_none m2 hj2]
        rfl

end Sync

theorem EdgeContainer.remove_fst {E : Type} (c : EdgeContainer E) (id : EdgeId) :
    (c.remove id).1 =
      ⟨(c.data.remove id.key).1, (c.connections.remove id.key).1⟩ := by
  unfold EdgeContainer.remove
  rcases h1 : (c.data.remove id.key).2 with _ | e <;>
    rcases h2 : (c.connections.remove id.key).2 with _ | i <;>
      simp only [h1, h2]

theorem EdgeContainer.sync_applyOp {E : Type} (c : EdgeContainer E) (op : EOp E)
    (h : ShapeSync c.data c.connections) :
    ShapeSync ((c.applyOp op).data) ((c.applyOp op).connections) := by
  cases op with
  | ins e info => exact (sync_insert c.data c.connections e info h).1
  | del id =>
    show ShapeSync ((c.remove id).1).data ((c.remove id).1).connections
    rw [EdgeContainer.remove_fst c id]
    exact sync_remove c.data c.connections id.key h
  | clr => exact ⟨rfl, rfl⟩

theorem EdgeContainer.sync_runOps {E : Type} (ops : List (EOp E)) :
    ShapeSync ((EdgeContainer.runOps ops).data) ((EdgeContainer.runOps ops).connections) := by
  suffices hgen : ∀ (c : EdgeContainer E), ShapeSync c.data c.connections →
      ShapeSync ((ops.foldl EdgeContainer.applyOp c).data)
        ((ops.foldl EdgeContainer.applyOp c).connections) by
    exact hgen EdgeContainer.new ⟨rfl, rfl⟩
  induction ops with
  | nil => intro c h; exact h
  | cons op rest ih =>
    intro c h
    rw [List.foldl_cons]
    exact ih (c.applyOp op) (EdgeContainer.sync_applyOp c op h)

/-- Claim C10: edge-store twin-map synchronization: after any sequence of
`EdgeContainer` operations (insert, remove, clear) starting from the empty
container, the payload slot map and the connectivity slot map are live on
exactly the same ids: `get(id)` is `Some` iff `get_connection(id)` is
`Some`. -/
theorem edge_container_twin_sync {E : Type} (ops : List (EOp E)) (id : EdgeId) :
    ((EdgeContainer.runOps ops).get id).isSome =
      ((EdgeContainer.runOps ops).get_connection id).isSome :=
  sync_get _ _ id.key (EdgeContainer.sync_runOps ops)

/-- Closed instantiation of `graph_clear_preserves_query_facade`: a vertex
indexed under "a" and 42 is still found by both queries after `clear`. -/
theorem graph_clear_preserves_query_facade_witness :
    facadeDemo.2 ∈ ((facadeDemo.1.clear).vertex_query.query_string "a")
    ∧ facadeDemo.2 ∈ ((facadeDemo.1.clear).vertex_query.query_int 42) :=
  ⟨(graph_clear_preserves_query_facade facadeDemo.1).2.2.2.2.1 "a" facadeDemo.2 (by decide),
   (graph_clear_preserves_query_facade facadeDemo.1).2.2.2.2.2 42 facadeDemo.2 (by decide)⟩

/-- Closed instantiation of `facade_remove_vertex_purges_all_indices` on a
facade holding two ids under the same keys: after removing one id, it is
absent from all three indices and the surviving entries are non-empty. -/
theorem facade_remove_vertex_purges_all_indices_witness :
    vidA ∉ ((facadePair.remove_vertex vidA).query_string "a")
    ∧ vidA ∉ ((facadePair.remove_vertex vidA).query_int 42)
    ∧ vidA ∉ ((42 : Int), [vidB]).2
    ∧ (("a", [vidB]).2 ≠ [])
    ∧ (((42 : Int), [vidB]).2 ≠ [])
    ∧ (((42 : Int), [vidB]).2 ≠ []) :=
  ⟨(facade_remove_vertex_purges_all_indices facadePair vidA).1 "a",
   (facade_remove_vertex_purges_all_indices facadePair vidA).2.1 42,
   (facade_remove_vertex_purges_all_indices facadePair vidA).2.2.1 (42, [vidB]) (by decide),
   (facade_remove_vertex_purges_all_indices facadePair vidA).2.2.2.1 ("a", [vidB]) (by decide),
   (facade_remove_vertex_purges_all_indices facadePair vidA).2.2.2.2.1 (42, [vidB]) (by decide),
   (facade_remove_vertex_purges_all_indices facadePair vidA).2.2.2.2.2 (42, [vidB]) (by decide)⟩

end SlotGraph
